import Mathlib

/-
  Verification of the multi-credential dispatch engine of gcli2api.

  Shallow embedding of the Go sources:
    internal/codeassist/multiclient.go   (MultiClient dispatch, pickStart, isRetryable)
    internal/codeassist/client.go        (parseSSEStream)
    internal/gemini (models.go)          (GeminiRequest round trip)
    internal/config/config.go            (LoadConfig defaults)

  Modelling conventions:
  - Go strings are Lean Strings; substring checks are done on the character
    lists (all needles in the program are ASCII, where byte level and
    character level containment agree).
  - Go machine integers that can overflow are modelled as Nat with explicit
    reduction modulo 2^64 (the round robin counter).
  - JSON values are modelled by an inductive type; JSON numbers are
    modelled as integers (no claim depends on float formatting).
  - Go errors are modelled as a record carrying the two identities the code
    tests with errors.Is (context.DeadlineExceeded, io.EOF) plus the
    message string.
-/

/-! ## String helpers (models of strings.Contains / ToLower / TrimSpace / HasPre) -/

/-- Model of a pattern matching at the head of a list. -/
def listStarts : List Char → List Char → Bool
  | [], _ => true
  | _ :: _, [] => false
  | a :: as, b :: bs => a = b && listStarts as bs

/-- Model of strings.Contains on character lists. -/
def listOccurs (pat : List Char) : List Char → Bool
  | [] => listStarts pat []
  | c :: rest => listStarts pat (c :: rest) || listOccurs pat rest

/-- Model of strings.Contains. -/
def goContains (s sub : String) : Bool := listOccurs sub.data s.data

/-- Model of strings.HasPre(s, p): p occurs at the start of s. -/
def goStarts (s p : String) : Bool := listStarts p.data s.data

/-- Model of strings.ToLower (ASCII relevant part). -/
def goToLower (s : String) : String := ⟨s.data.map Char.toLower⟩

/-- Whitespace characters trimmed by strings.TrimSpace (ASCII part). -/
def isSpaceChar (c : Char) : Bool :=
  c = ' ' || c = '\t' || c = '\n' || c = '\r' || c = '\x0b' || c = '\x0c'

/-- Model of strings.TrimSpace. -/
def goTrimSpace (s : String) : String :=
  ⟨((s.data.dropWhile isSpaceChar).reverse.dropWhile isSpaceChar).reverse⟩

/-- Model of the Go slice expression s[k:] on an ASCII string. -/
def goDrop (s : String) (k : Nat) : String := ⟨s.data.drop k⟩

/-! ## Go error model and the retryability classifier (multiclient.go, isRetryable) -/

/-- Model of a Go error value: the identities tested via errors.Is plus the
message produced by Error(). -/
structure GoError where
  isDeadlineExceeded : Bool
  isEOF : Bool
  msg : String
deriving Repr, DecidableEq

/-- The error context.Canceled (message "context canceled"); errors.Is
matches neither context.DeadlineExceeded nor io.EOF on it. -/
def contextCanceled : GoError := ⟨false, false, "context canceled"⟩

/-- Embedding of isRetryable from multiclient.go: a nil error is not
retryable; context.DeadlineExceeded and io.EOF are retryable; otherwise the
error string is tested for the literal status substrings and, lowercased,
for the transport failure substrings. -/
def isRetryable : Option GoError → Bool
  | none => false
  | some e =>
    if e.isDeadlineExceeded then true
    else if e.isEOF then true
    else
      let s := e.msg
      if goContains s "status 401" || goContains s "status 403" || goContains s "status 429" then
        true
      else if goContains s "status 5" then true
      else
        let ls := goToLower s
        if goContains ls "timeout" || goContains ls "connection reset" ||
            goContains ls "temporary failure" || goContains ls "unexpected eof" then
          true
        else false

/-- The retryability condition exactly as the specification words it: a
disjunction over the deadline and EOF identities, the status substrings and
the case insensitive transport failure substrings. -/
def retryableSpec : Option GoError → Prop
  | none => False
  | some e =>
    e.isDeadlineExceeded = true ∨ e.isEOF = true ∨
    goContains e.msg "status 401" = true ∨ goContains e.msg "status 403" = true ∨
    goContains e.msg "status 429" = true ∨ goContains e.msg "status 5" = true ∨
    goContains (goToLower e.msg) "timeout" = true ∨
    goContains (goToLower e.msg) "connection reset" = true ∨
    goContains (goToLower e.msg) "temporary failure" = true ∨
    goContains (goToLower e.msg) "unexpected eof" = true

/-! ## Configuration defaults (config.go, LoadConfig) -/

/-- The decoded configuration structure (config.go). Absent keys decode to
the Go zero value of the field, so an explicit zero and a missing key are
indistinguishable after decoding. Integer fields are Int, as Go int/int64. -/
structure Config where
  host : String
  serverPort : Int
  authKey : String
  requestMaxRetries : Int
  requestBaseDelayMillis : Int
  sqlitePath : String
  requestMaxBodyBytes : Int
  maxConcurrentRequests : Int
deriving Repr, DecidableEq

/-- Embedding of the default application block at the end of LoadConfig. -/
def applyDefaults (c : Config) : Config :=
  { c with
    host := if c.host = "" then "127.0.0.1" else c.host
    serverPort := if c.serverPort = 0 then 8085 else c.serverPort
    requestMaxRetries := if c.requestMaxRetries = 0 then 3 else c.requestMaxRetries
    requestBaseDelayMillis :=
      if c.requestBaseDelayMillis = 0 then 1000 else c.requestBaseDelayMillis
    sqlitePath := if c.sqlitePath = "" then "./data/state.db" else c.sqlitePath
    requestMaxBodyBytes :=
      if c.requestMaxBodyBytes = 0 then 16 * 1024 * 1024 else c.requestMaxBodyBytes
    maxConcurrentRequests :=
      if c.maxConcurrentRequests = 0 then 64 else c.maxConcurrentRequests }

/-! ## Round robin counter (multiclient.go, pickStart) -/

/-- The modulus 2^64 of the uint64 round robin counter. -/
def U64 : Nat := 2 ^ 64

/-- Embedding of MultiClient.pickStart. State is the rr counter (a uint64,
modelled as a Nat below 2^64). Returns the chosen index and the new counter.
With an empty pool the counter is untouched and 0 is returned. The uint64
expression atomic.AddUint64(rr,1) - 1 is modelled with explicit wraparound. -/
def pickStart (rr n : Nat) : Nat × Nat :=
  if n = 0 then (0, rr)
  else
    let post := (rr + 1) % U64
    let v := (post + (U64 - 1)) % U64
    (v % n, post)

/-- N successive calls of pickStart, collecting the returned indices. -/
def pickStartN (rr n : Nat) : Nat → List Nat
  | 0 => []
  | b + 1 =>
    let p := pickStart rr n
    p.1 :: pickStartN p.2 n b

/-! ## JSON value model -/

/-- JSON values. Numbers are modelled as integers; objects keep their
fields as an ordered association list (Go maps are modelled by removing
duplicate keys, keeping the last occurrence, as encoding/json does). -/
inductive JVal where
  | null
  | bool (b : Bool)
  | num (n : Int)
  | str (s : String)
  | arr (elems : List JVal)
  | obj (fields : List (String × JVal))
deriving Repr

/-- First occurrence lookup in an association list of JSON fields. -/
def lookupField (k : String) : List (String × JVal) → Option JVal
  | [] => none
  | (k2, v) :: rest => if k2 = k then some v else lookupField k rest

/-- Removal of duplicate keys keeping the last occurrence: the association
list that represents the Go map built by json.Unmarshal from an object. -/
def dedupKeepLast : List (String × JVal) → List (String × JVal)
  | [] => []
  | (k, v) :: rest =>
    if (rest.map Prod.fst).contains k then dedupKeepLast rest
    else (k, v) :: dedupKeepLast rest

/-- Model of json.Unmarshal into map[string]json.RawMessage: succeeds on an
object (building the map) and on null (leaving a nil map), fails otherwise. -/
def jvalToMap : JVal → Option (List (String × JVal))
  | .obj fs => some (dedupKeepLast fs)
  | .null => some []
  | _ => none

/-! ## Gemini data model (internal/gemini, models.go) -/

/-- Model of gemini.InlineData. -/
structure InlineData where
  mimeType : String
  data : String
deriving Repr

/-- Model of gemini.FileData. -/
structure FileData where
  mimeType : String
  fileUri : String
deriving Repr

/-- Model of gemini.FunctionCall; Args is interface{}, modelled as a JSON
value (null for the nil interface, since the args tag has no omitempty). -/
structure FunctionCall where
  name : String
  args : JVal
deriving Repr

/-- Model of gemini.FunctionResponse. -/
structure FunctionResponse where
  name : String
  response : JVal
deriving Repr

/-- Model of gemini.GeminiPart; pointer fields are Options. -/
structure GeminiPart where
  text : String
  thought : Bool
  inlineData : Option InlineData
  fileData : Option FileData
  functionCall : Option FunctionCall
  functionResp : Option FunctionResponse
deriving Repr

/-- The zero value of GeminiPart. -/
def GeminiPart.zero : GeminiPart := ⟨"", false, none, none, none, none⟩

/-- Model of gemini.GeminiContent. The parts slice distinguishes nil
(Option none) from an empty slice since the parts tag has no omitempty. -/
structure GeminiContent where
  role : String
  parts : Option (List GeminiPart)
deriving Repr

/-- The zero value of GeminiContent. -/
def GeminiContent.zero : GeminiContent := ⟨"", none⟩

/-- Model of gemini.GenerationConfig (numeric fields follow the integer
modelling of JSON numbers; thinkingConfig is interface{}). -/
structure GenerationConfig where
  temperature : Int
  maxOutputTokens : Int
  topP : Int
  stopSequences : Option (List String)
  thinkingConfig : Option JVal
deriving Repr

/-- Model of gemini.GeminiRequest with its UnknownFields map (kept as an
association list with unique keys, in input order). -/
structure GeminiRequest where
  systemInstruction : Option GeminiContent
  contents : Option (List GeminiContent)
  generationConfig : Option GenerationConfig
  unknownFields : List (String × JVal)
deriving Repr

/-- Model of gemini.UsageMetadata. -/
structure UsageMetadata where
  promptTokenCount : Int
  candidatesTokenCount : Int
  totalTokenCount : Int
deriving Repr

/-- Model of gemini.Candidate: the embedded content struct is flattened to
its single parts field. -/
structure Candidate where
  contentParts : Option (List GeminiPart)
deriving Repr

/-- Model of gemini.GeminiAPIResponse; interface{} fields hold raw JSON. -/
structure GeminiAPIResponse where
  candidates : Option (List Candidate)
  usageMetadata : Option UsageMetadata
  promptFeedback : Option JVal
  automaticFunctionCalls : Option JVal
deriving Repr

/-- The zero value of GeminiAPIResponse. -/
def GeminiAPIResponse.zero : GeminiAPIResponse := ⟨none, none, none, none⟩

/-! ## Decoding of JSON values into the Gemini structures
(semantics of encoding/json driven by the struct tags in models.go) -/

/-- Decoding a JSON value into a Go string field: null leaves the zero
value, a string decodes, anything else is a type error. -/
def decodeString : JVal → Except String String
  | .null => .ok ""
  | .str s => .ok s
  | _ => .error "cannot unmarshal into string"

/-- Decoding into a Go bool field. -/
def decodeBool : JVal → Except String Bool
  | .null => .ok false
  | .bool b => .ok b
  | _ => .error "cannot unmarshal into bool"

/-- Decoding into a Go numeric field (integer modelling of numbers). -/
def decodeNum : JVal → Except String Int
  | .null => .ok 0
  | .num n => .ok n
  | _ => .error "cannot unmarshal into number"

/-- Decoding an optional field of an object: absent and present behave
differently only through the continuation. -/
def decodeFieldD (raw : List (String × JVal)) (k : String) (dflt : α)
    (f : JVal → Except String α) : Except String α :=
  match lookupField k raw with
  | none => .ok dflt
  | some v => f v

/-- Decoding into InlineData (object or null). -/
def decodeInlineData : JVal → Except String InlineData
  | .null => .ok ⟨"", ""⟩
  | .obj fs =>
    let raw := dedupKeepLast fs
    do
      let m ← decodeFieldD raw "mimeType" "" decodeString
      let d ← decodeFieldD raw "data" "" decodeString
      .ok ⟨m, d⟩
  | _ => .error "cannot unmarshal into InlineData"

/-- Decoding into FileData (object or null). -/
def decodeFileData : JVal → Except String FileData
  | .null => .ok ⟨"", ""⟩
  | .obj fs =>
    let raw := dedupKeepLast fs
    do
      let m ← decodeFieldD raw "mimeType" "" decodeString
      let u ← decodeFieldD raw "fileUri" "" decodeString
      .ok ⟨m, u⟩
  | _ => .error "cannot unmarshal into FileData"

/-- Decoding into FunctionCall (object or null); args is generic. -/
def decodeFunctionCall : JVal → Except String FunctionCall
  | .null => .ok ⟨"", .null⟩
  | .obj fs =>
    let raw := dedupKeepLast fs
    do
      let n ← decodeFieldD raw "name" "" decodeString
      let a := (lookupField "args" raw).getD .null
      .ok ⟨n, a⟩
  | _ => .error "cannot unmarshal into FunctionCall"

/-- Decoding into FunctionResponse (object or null). -/
def decodeFunctionResponse : JVal → Except String FunctionResponse
  | .null => .ok ⟨"", .null⟩
  | .obj fs =>
    let raw := dedupKeepLast fs
    do
      let n ← decodeFieldD raw "name" "" decodeString
      let r := (lookupField "response" raw).getD .null
      .ok ⟨n, r⟩
  | _ => .error "cannot unmarshal into FunctionResponse"

/-- Decoding into a pointer field: null yields the nil pointer. -/
def decodePtr (f : JVal → Except String α) : JVal → Except String (Option α)
  | .null => .ok none
  | v => (f v).map some

/-- Decoding into GeminiPart (object or null). -/
def decodeGeminiPart : JVal → Except String GeminiPart
  | .null => .ok GeminiPart.zero
  | .obj fs =>
    let raw := dedupKeepLast fs
    do
      let t ← decodeFieldD raw "text" "" decodeString
      let th ← decodeFieldD raw "thought" false decodeBool
      let idat ← decodeFieldD raw "inlineData" none (decodePtr decodeInlineData)
      let fd ← decodeFieldD raw "fileData" none (decodePtr decodeFileData)
      let fc ← decodeFieldD raw "functionCall" none (decodePtr decodeFunctionCall)
      let fr ← decodeFieldD raw "functionResponse" none (decodePtr decodeFunctionResponse)
      .ok ⟨t, th, idat, fd, fc, fr⟩
  | _ => .error "cannot unmarshal into GeminiPart"

/-- Decoding into a slice of parts: null yields the nil slice. -/
def decodeParts : JVal → Except String (Option (List GeminiPart))
  | .null => .ok none
  | .arr xs => (xs.mapM decodeGeminiPart).map some
  | _ => .error "cannot unmarshal into parts slice"

/-- Decoding into GeminiContent (object or null). -/
def decodeGeminiContent : JVal → Except String GeminiContent
  | .null => .ok GeminiContent.zero
  | .obj fs =>
    let raw := dedupKeepLast fs
    do
      let r ← decodeFieldD raw "role" "" decodeString
      let ps ← decodeFieldD raw "parts" none decodeParts
      .ok ⟨r, ps⟩
  | _ => .error "cannot unmarshal into GeminiContent"

/-- Decoding into a slice of contents: null yields the nil slice. -/
def decodeContents : JVal → Except String (Option (List GeminiContent))
  | .null => .ok none
  | .arr xs => (xs.mapM decodeGeminiContent).map some
  | _ => .error "cannot unmarshal into contents slice"

/-- Decoding into a slice of strings: null yields the nil slice. -/
def decodeStrings : JVal → Except String (Option (List String))
  | .null => .ok none
  | .arr xs => (xs.mapM decodeString).map some
  | _ => .error "cannot unmarshal into string slice"

/-- Decoding into an interface{} field: null decodes to the nil interface. -/
def decodeAny : JVal → Except String (Option JVal)
  | .null => .ok none
  | v => .ok (some v)

/-- Decoding into GenerationConfig (object or null). -/
def decodeGenerationConfig : JVal → Except String GenerationConfig
  | .null => .ok ⟨0, 0, 0, none, none⟩
  | .obj fs =>
    let raw := dedupKeepLast fs
    do
      let t ← decodeFieldD raw "temperature" 0 decodeNum
      let mo ← decodeFieldD raw "maxOutputTokens" 0 decodeNum
      let tp ← decodeFieldD raw "topP" 0 decodeNum
      let ss ← decodeFieldD raw "stopSequences" none decodeStrings
      let tc ← decodeFieldD raw "thinkingConfig" none decodeAny
      .ok ⟨t, mo, tp, ss, tc⟩
  | _ => .error "cannot unmarshal into GenerationConfig"

/-- Decoding into UsageMetadata (object or null; null leaves the zero
value and succeeds, as json.Unmarshal does for a non pointer struct). -/
def decodeUsageMetadata : JVal → Except String UsageMetadata
  | .null => .ok ⟨0, 0, 0⟩
  | .obj fs =>
    let raw := dedupKeepLast fs
    do
      let p ← decodeFieldD raw "promptTokenCount" 0 decodeNum
      let c ← decodeFieldD raw "candidatesTokenCount" 0 decodeNum
      let t ← decodeFieldD raw "totalTokenCount" 0 decodeNum
      .ok ⟨p, c, t⟩
  | _ => .error "cannot unmarshal into UsageMetadata"

/-- Decoding into Candidate: the content field is an embedded struct with
one parts field. -/
def decodeCandidate : JVal → Except String Candidate
  | .null => .ok ⟨none⟩
  | .obj fs =>
    let raw := dedupKeepLast fs
    match lookupField "content" raw with
    | none => .ok ⟨none⟩
    | some .null => .ok ⟨none⟩
    | some (.obj cfs) =>
      (decodeFieldD (dedupKeepLast cfs) "parts" none decodeParts).map (⟨·⟩)
    | some _ => .error "cannot unmarshal into candidate content"
  | _ => .error "cannot unmarshal into Candidate"

/-- Decoding into a slice of candidates: null yields the nil slice. -/
def decodeCandidates : JVal → Except String (Option (List Candidate))
  | .null => .ok none
  | .arr xs => (xs.mapM decodeCandidate).map some
  | _ => .error "cannot unmarshal into candidates slice"

/-- Decoding into GeminiAPIResponse (object or null). -/
def decodeGeminiAPIResponse : JVal → Except String GeminiAPIResponse
  | .null => .ok GeminiAPIResponse.zero
  | .obj fs =>
    let raw := dedupKeepLast fs
    do
      let cs ← decodeFieldD raw "candidates" none decodeCandidates
      let um ← decodeFieldD raw "usageMetadata" none (decodePtr decodeUsageMetadata)
      let pf ← decodeFieldD raw "promptFeedback" none decodeAny
      let af ← decodeFieldD raw "automaticFunctionCallingHistory" none decodeAny
      .ok ⟨cs, um, pf, af⟩
  | _ => .error "cannot unmarshal into GeminiAPIResponse"

/-! ## GeminiRequest unmarshal and marshal (models.go, custom JSON methods) -/

/-- The known top level keys of GeminiRequest (models.go, knownFields). -/
def knownRequestKeys : List String := ["systemInstruction", "contents", "generationConfig"]

/-- Embedding of GeminiRequest.UnmarshalJSON: build the raw map, decode the
three known fields through the tag driven decoder, and keep every other
key with its generic value in UnknownFields. -/
def unmarshalGeminiRequest (j : JVal) : Except String GeminiRequest :=
  match jvalToMap j with
  | none => .error "cannot unmarshal request into map"
  | some raw => do
    let si ← decodeFieldD raw "systemInstruction" none (decodePtr decodeGeminiContent)
    let cs ← decodeFieldD raw "contents" none decodeContents
    let gc ← decodeFieldD raw "generationConfig" none (decodePtr decodeGenerationConfig)
    let unknown := raw.filter (fun p => !(knownRequestKeys.contains p.1))
    .ok ⟨si, cs, gc, unknown⟩

/-- Encoding of GeminiPart following the struct tags (omitempty on every
field). -/
def encodeGeminiPart (p : GeminiPart) : JVal :=
  .obj <|
    (if p.text = "" then [] else [("text", JVal.str p.text)]) ++
    (if p.thought then [("thought", JVal.bool true)] else []) ++
    (match p.inlineData with
      | none => []
      | some d => [("inlineData", JVal.obj [("mimeType", .str d.mimeType), ("data", .str d.data)])]) ++
    (match p.fileData with
      | none => []
      | some d => [("fileData", JVal.obj [("mimeType", .str d.mimeType), ("fileUri", .str d.fileUri)])]) ++
    (match p.functionCall with
      | none => []
      | some f => [("functionCall", JVal.obj [("name", .str f.name), ("args", f.args)])]) ++
    (match p.functionResp with
      | none => []
      | some f => [("functionResponse", JVal.obj [("name", .str f.name), ("response", f.response)])])

/-- Encoding of GeminiContent (role and parts, no omitempty). -/
def encodeGeminiContent (c : GeminiContent) : JVal :=
  .obj [("role", .str c.role),
        ("parts", match c.parts with
          | none => .null
          | some ps => .arr (ps.map encodeGeminiPart))]

/-- Encoding of GenerationConfig (omitempty on every field; omitempty
omits empty slices as well as nil ones). -/
def encodeGenerationConfig (g : GenerationConfig) : JVal :=
  .obj <|
    (if g.temperature = 0 then [] else [("temperature", JVal.num g.temperature)]) ++
    (if g.maxOutputTokens = 0 then [] else [("maxOutputTokens", JVal.num g.maxOutputTokens)]) ++
    (if g.topP = 0 then [] else [("topP", JVal.num g.topP)]) ++
    (match g.stopSequences with
      | none => []
      | some [] => []
      | some ss => [("stopSequences", JVal.arr (ss.map JVal.str))]) ++
    (match g.thinkingConfig with
      | none => []
      | some v => [("thinkingConfig", v)])

/-- Map insertion with override, modelling assignment into a Go map (the
entry order of the model is irrelevant to field lookup). -/
def mapInsertKV : List (String × JVal) → String → JVal → List (String × JVal)
  | [], k, v => [(k, v)]
  | (k2, v2) :: rest, k, v =>
    if k2 = k then (k, v) :: rest else (k2, v2) :: mapInsertKV rest k v

/-- Embedding of GeminiRequest.MarshalJSON: marshal the known fields
(systemInstruction and generationConfig carry omitempty, contents does
not), then add every unknown field to the resulting map. The assignment
order of the map makes no observable difference to field lookup. -/
def marshalGeminiRequestFields (gr : GeminiRequest) : List (String × JVal) :=
  let temp : List (String × JVal) :=
    (match gr.systemInstruction with
      | none => []
      | some si => [("systemInstruction", encodeGeminiContent si)]) ++
    [("contents", match gr.contents with
      | none => JVal.null
      | some cs => JVal.arr (cs.map encodeGeminiContent))] ++
    (match gr.generationConfig with
      | none => []
      | some gc => [("generationConfig", encodeGenerationConfig gc)])
  gr.unknownFields.foldl (fun m p => mapInsertKV m p.1 p.2) temp

/-- The marshalled GeminiRequest as a JSON value. -/
def marshalGeminiRequest (gr : GeminiRequest) : JVal :=
  .obj (marshalGeminiRequestFields gr)

/-! ## SSE parser (client.go, parseSSEStream)

The text level JSON parser belongs to encoding/json, not to this
repository; it is therefore a parameter pj of the model. Everything the
repository does with the parsed value is embedded concretely. The callback
is modelled by a function that may fail on a delivered event; the model
returns the events delivered (in order) and the callback error, if any. -/

/-- One parsed SSE data payload, as the envelope detection of
parseSSEStream treats it: the decoded event, if the payload produces one. -/
def parseSSEData (pj : String → Option JVal) (data : String) : Option GeminiAPIResponse :=
  match pj data with
  | none => none
  | some j =>
    match jvalToMap j with
    | none => none
    | some raw =>
      match lookupField "response" raw with
      | some rj =>
        match decodeGeminiAPIResponse rj with
        | .error _ => none
        | .ok resp =>
          let usage :=
            match lookupField "usageMetadata" raw with
            | some uj =>
              match decodeUsageMetadata uj with
              | .ok u => some u
              | .error _ => none
            | none => none
          match resp.usageMetadata, usage with
          | none, some u => some { resp with usageMetadata := some u }
          | _, _ => some resp
      | none =>
        match decodeGeminiAPIResponse j with
        | .error _ => none
        | .ok resp => some resp

/-- The event a single line contributes, if any: blank lines, comment
lines, non data lines, the [DONE] sentinel, unparsable payloads and
undecodable payloads contribute nothing. -/
def parseSSELine (pj : String → Option JVal) (line : String) : Option GeminiAPIResponse :=
  if line = "" || goStarts line ":" then none
  else if goStarts line "data: " then
    let data := goTrimSpace (goDrop line 6)
    if data = "[DONE]" then none
    else parseSSEData pj data
  else none

/-- Embedding of parseSSEStream over the scanned lines: each parsed event
is handed to the callback in input order; a callback error aborts the
read. Returns the delivered events and the callback error, if one occurred. -/
def parseSSEStream (pj : String → Option JVal) (cb : GeminiAPIResponse → Option ε) :
    List String → List GeminiAPIResponse × Option ε
  | [] => ([], none)
  | line :: rest =>
    match parseSSELine pj line with
    | none => parseSSEStream pj cb rest
    | some resp =>
      match cb resp with
      | some e => ([resp], some e)
      | none =>
        let r := parseSSEStream pj cb rest
        (resp :: r.1, r.2)

/-- The events of an input, independent of any callback. -/
def sseEvents (pj : String → Option JVal) : List String → List GeminiAPIResponse
  | [] => []
  | line :: rest =>
    match parseSSELine pj line with
    | none => sseEvents pj rest
    | some resp => resp :: sseEvents pj rest

/-! ## Pool construction (multiclient.go, NewMultiClient) -/

/-- A pool unit: index, credential path and the optionally preset project
id (none is discovery mode). Token key and client handle are irrelevant to
the construction claims. -/
structure PoolUnit where
  idx : Nat
  path : String
  preset : Option String
deriving Repr, DecidableEq

/-- The explicit project units built by the inner loop of NewMultiClient
for one credential: one unit per non sentinel entry, with a running index;
returns the units and the next free index. -/
def explicitUnits (path : String) : Nat → List String → List PoolUnit × Nat
  | idx0, [] => ([], idx0)
  | idx0, pid :: rest =>
    if pid = "_auto" then explicitUnits path idx0 rest
    else
      let r := explicitUnits path (idx0 + 1) rest
      (⟨idx0, path, some pid⟩ :: r.1, r.2)

/-- The units NewMultiClient appends for the list of credential sources,
threading the running unit index. A credential absent from the project map
or mapped to an empty list yields one discovery unit; otherwise one unit
per explicit id, and a single trailing discovery unit when the sentinel
"_auto" occurs anywhere in the list. -/
def newMultiClientEntries (pm : String → Option (List String)) :
    List String → Nat → List PoolUnit
  | [], _ => []
  | path :: rest, idx0 =>
    match pm path with
    | none => ⟨idx0, path, none⟩ :: newMultiClientEntries pm rest (idx0 + 1)
    | some [] => ⟨idx0, path, none⟩ :: newMultiClientEntries pm rest (idx0 + 1)
    | some (u :: us) =>
      let ex := explicitUnits path idx0 (u :: us)
      let incAuto := (u :: us).contains "_auto"
      let auto : List PoolUnit := if incAuto then [⟨ex.2, path, none⟩] else []
      let idx2 := if incAuto then ex.2 + 1 else ex.2
      ex.1 ++ auto ++ newMultiClientEntries pm rest idx2

/-- Embedding of NewMultiClient: builds the unit pool and fails when it is
empty. -/
def NewMultiClient (sources : List String) (pm : String → Option (List String)) :
    Except GoError (List PoolUnit) :=
  let es := newMultiClientEntries pm sources 0
  if es.isEmpty then .error ⟨false, false, "no valid credentials provided"⟩ else .ok es

/-- The per credential unit presets as claim C5 words them: one unit per
entry, in the order of the configured list, the sentinel giving a
discovery unit in place. -/
def specPresetsInListOrder (l : List String) : List (Option String) :=
  l.map (fun pid => if pid = "_auto" then none else some pid)

/-! ## Project id resolution (multiclient.go, getOrDiscoverProjectID) -/

/-- Outcome of a getOrDiscoverProjectID call: the returned value, the
state of the preset slot afterwards, the project ids upserted into the
state store, and whether the store or discovery were consulted at all. -/
structure ResolveOutcome where
  result : Except GoError String
  slotAfter : Option String
  upserts : List String
  consultedStore : Bool
  ranDiscovery : Bool
deriving Repr

/-- The slot test of getOrDiscoverProjectID: the atomic value must be
loaded, hold a string, and that string must be non empty. -/
def slotHit : Option String → Option String
  | none => none
  | some s => if s = "" then none else some s

/-- Embedding of getOrDiscoverProjectID. Arguments: the unit preset slot
(none when never stored), the store behaviour (none when no store is
configured; otherwise an error, a miss, or a hit), and the result the
discovery call would produce. Store writes are best effort and recorded
as intents. -/
def getOrDiscoverProjectID (slot : Option String)
    (store : Option (Except GoError (Option String)))
    (discover : Except GoError String) : ResolveOutcome :=
  match slotHit slot with
  | some s => ⟨.ok s, slot, [], false, false⟩
  | none =>
    match store with
    | some (.ok (some pid)) => ⟨.ok pid, some pid, [], true, false⟩
    | _ =>
      let consulted := store.isSome
      match discover with
      | .error e => ⟨.error e, slot, [], consulted, true⟩
      | .ok pid =>
        if pid = "" then
          ⟨.error ⟨false, false, "fail to discovered project"⟩, slot, [], consulted, true⟩
        else
          ⟨.ok pid, some pid, if store.isSome then [pid] else [], consulted, true⟩

/-! ## Unary dispatch (multiclient.go, GenerateContent) -/

/-- The error GenerateContent and GenerateContentStream report for an
empty pool. -/
def noCredsErr : GoError := ⟨false, false, "no credentials configured"⟩

/-- Behaviour of one attempt of the unary dispatch: what project id
resolution would yield for the chosen unit, and what the generation call
on it would return. Attempts are indexed by the attempt number so that a
unit reached twice may behave differently on each visit. -/
structure UnaryAttempt where
  resolve : Except GoError String
  call : Except GoError GeminiAPIResponse

/-- The effective resolution step of attempt k: skipped (the caller
supplied project is used) unless the request project is empty. -/
def effResolve (project : String) (attempts : Nat → UnaryAttempt) (k : Nat) :
    Except GoError String :=
  if project = "" then (attempts k).resolve else .ok project

/-- The attempt loop of GenerateContent. fuel counts the remaining
attempts, k = total - fuel is the current attempt number. Returns the Go
result pair (response, error) and the pool indices of the attempts made,
in order. -/
def generateContentLoop (n start total : Nat) (project : String)
    (attempts : Nat → UnaryAttempt) :
    Nat → Option GoError → List Nat → (Option GeminiAPIResponse × Option GoError) × List Nat
  | 0, lastErr, tried => ((none, lastErr), tried)
  | fuel + 1, _lastErr, tried =>
    let k := total - (fuel + 1)
    let j := (start + k) % n
    match effResolve project attempts k with
    | .error e => generateContentLoop n start total project attempts fuel (some e) (tried ++ [j])
    | .ok _ =>
      match (attempts k).call with
      | .ok resp => ((some resp, none), tried ++ [j])
      | .error e =>
        if k + 1 = total || !isRetryable (some e) then ((none, some e), tried ++ [j])
        else generateContentLoop n start total project attempts fuel (some e) (tried ++ [j])

/-- Embedding of MultiClient.GenerateContent. retries is the cross unit
retry budget (total attempts = retries + 1). -/
def GenerateContent (n start retries : Nat) (project : String)
    (attempts : Nat → UnaryAttempt) : (Option GeminiAPIResponse × Option GoError) × List Nat :=
  if n = 0 then ((none, some noCredsErr), [])
  else generateContentLoop n start (retries + 1) project attempts (retries + 1) none []

/-- Whether attempt k settles the unary dispatch, as claim C3 words the
policy: resolution failure rotates; a successful call settles; a failed
call settles exactly when the budget is exhausted or the error is not
retryable. -/
def unaryDecides (total : Nat) (project : String) (attempts : Nat → UnaryAttempt)
    (k : Nat) : Bool :=
  match effResolve project attempts k with
  | .error _ => false
  | .ok _ =>
    match (attempts k).call with
    | .ok _ => true
    | .error e => k + 1 = total || !isRetryable (some e)

/-- The Go result pair of the attempt that settles the dispatch. -/
def unaryOutcome (project : String) (attempts : Nat → UnaryAttempt) (k : Nat) :
    Option GeminiAPIResponse × Option GoError :=
  match effResolve project attempts k with
  | .error e => (none, some e)
  | .ok _ =>
    match (attempts k).call with
    | .ok resp => (some resp, none)
    | .error e => (none, some e)

/-- The error attempt k leaves in lastErr when it does not settle the
dispatch (claim C3: the last attempt error is surfaced when the budget is
exhausted). -/
def lastAttemptErr (project : String) (attempts : Nat → UnaryAttempt) (k : Nat) :
    Option GoError :=
  match effResolve project attempts k with
  | .error e => some e
  | .ok _ =>
    match (attempts k).call with
    | .ok _ => none
    | .error e => some e

/-! ## Streaming dispatch (multiclient.go, GenerateContentStream) -/

/-- The observable actions of the dispatch goroutine on the outer channel
pair, in execution order. -/
inductive OuterAct where
  | sendOut (g : GeminiAPIResponse)
  | closeOut
  | sendErr (e : GoError)
  | closeErr
deriving Repr

/-- One observation the inner select loop makes on the upstream channel
pair or the context: an event received, the event channel closing, a value
received from the error channel (none models a nil error value), the error
channel closing, or the context firing. -/
inductive InnerObs where
  | event (g : GeminiAPIResponse)
  | outClosed
  | errValue (e : Option GoError)
  | errsClosed
  | ctxDone (e : GoError)
deriving Repr

/-- How one attempt of the streaming dispatch ends: rotation to the next
unit, a return (the outer channels are now closed), or a blocked select
(the observation schedule ended while the code would keep waiting). -/
inductive InnerOutcome where
  | rotate (e : GoError)
  | returned
  | blocked
deriving Repr, DecidableEq

/-- Embedding of the inner select loop of GenerateContentStream for one
attempt. Arguments: whether attempts remain (k < total - 1), the sentAny
flag, whether upErrs is still a live channel (the code sets it to nil on a
closed or nil valued receive), and the observation schedule. Returns the
outer actions emitted and how the attempt ended. -/
def runInner (canRotate : Bool) :
    Bool → Bool → List InnerObs → List OuterAct × InnerOutcome
  | _, _, [] => ([], .blocked)
  | _, upOpen, .event g :: rest =>
    let r := runInner canRotate true upOpen rest
    (.sendOut g :: r.1, r.2)
  | _, upOpen, .outClosed :: rest =>
    if upOpen then
      match rest with
      | .errValue (some e) :: _ => ([.sendErr e, .closeOut, .closeErr], .returned)
      | .errValue none :: _ => ([.closeOut, .closeErr], .returned)
      | .errsClosed :: _ => ([.closeOut, .closeErr], .returned)
      | .ctxDone e :: _ => ([.sendErr e, .closeOut, .closeErr], .returned)
      | _ => ([], .blocked)
    else ([.closeOut, .closeErr], .returned)
  | sentAny, upOpen, .errValue x :: rest =>
    if upOpen then
      match x with
      | none => runInner canRotate sentAny false rest
      | some e =>
        if !sentAny && canRotate && isRetryable (some e) then ([], .rotate e)
        else ([.sendErr e, .closeOut, .closeErr], .returned)
    else ([], .blocked)
  | sentAny, upOpen, .errsClosed :: rest =>
    if upOpen then runInner canRotate sentAny false rest else ([], .blocked)
  | _, _, .ctxDone e :: _ => ([.sendErr e, .closeOut, .closeErr], .returned)

/-- Behaviour of one attempt of the streaming dispatch: the project id
resolution result and the observation schedule of the upstream stream the
attempt would start. -/
structure StreamAttempt where
  resolve : Except GoError String
  obs : List InnerObs

/-- Result of a streaming dispatch run: the emitted outer actions, the
attempt numbers whose upstream stream was started (in order), and whether
the run ended in a blocked select. -/
structure StreamResult where
  trace : List OuterAct
  invoked : List Nat
  blocked : Bool
deriving Repr

/-- The attempt loop of GenerateContentStream. fuel counts remaining
attempts, k = total - fuel is the attempt number; lastErr, the emitted
trace and the invoked indices are threaded through. -/
def streamLoop (n start total : Nat) (project : String)
    (attempts : Nat → StreamAttempt) :
    Nat → Option GoError → List OuterAct → List Nat → StreamResult
  | 0, lastErr, tr, inv =>
    match lastErr with
    | some e => ⟨tr ++ [.closeOut, .sendErr e, .closeErr], inv, false⟩
    | none => ⟨tr ++ [.closeOut, .closeErr], inv, false⟩
  | fuel + 1, _lastErr, tr, inv =>
    let k := total - (fuel + 1)
    let j := (start + k) % n
    match (if project = "" then (attempts k).resolve else .ok project) with
    | .error e => streamLoop n start total project attempts fuel (some e) tr inv
    | .ok _ =>
      let r := runInner (decide (k + 1 < total)) false true (attempts k).obs
      match r.2 with
      | .rotate e =>
        streamLoop n start total project attempts fuel (some e) (tr ++ r.1) (inv ++ [j])
      | .returned => ⟨tr ++ r.1, inv ++ [j], false⟩
      | .blocked => ⟨tr ++ r.1, inv ++ [j], true⟩

/-- Embedding of MultiClient.GenerateContentStream: with an empty pool the
output channel is closed first and the error is sent afterwards; otherwise
the attempt loop runs with total = retries + 1 attempts. -/
def GenerateContentStream (n start retries : Nat) (project : String)
    (attempts : Nat → StreamAttempt) : StreamResult :=
  if n = 0 then ⟨[.closeOut, .sendErr noCredsErr, .closeErr], [], false⟩
  else streamLoop n start (retries + 1) project attempts (retries + 1) none [] []

/-- The ordering property claim C1 asserts of a failed stream: every
delivered error precedes every close of the outer event channel. -/
def errObservedBeforeClose (tr : List OuterAct) : Prop :=
  ∀ i j e, tr.get? i = some (.sendErr e) → tr.get? j = some .closeOut → i < j

/-- An action list consisting only of forwarded events. -/
def allSendOut (tr : List OuterAct) : Prop :=
  ∀ a ∈ tr, ∃ g, a = OuterAct.sendOut g

/-! ## Helper lemmas -/

theorem U64_pos : 0 < U64 := by
  unfold U64
  positivity

theorem wrapDecEq (rr : Nat) (h : rr < U64) :
    ((rr + 1) % U64 + (U64 - 1)) % U64 = rr := by
  have hpos : 0 < U64 := U64_pos
  rcases Nat.lt_or_ge (rr + 1) U64 with h1 | h1
  · rw [Nat.mod_eq_of_lt h1]
    have h2 : rr + 1 + (U64 - 1) = rr + U64 := by omega
    rw [h2, Nat.add_mod_right, Nat.mod_eq_of_lt h]
  · have h2 : rr + 1 = U64 := by omega
    rw [h2, Nat.mod_self, Nat.zero_add, Nat.mod_eq_of_lt (by omega)]
    omega

theorem pickStart_eq (rr n : Nat) (hn : 0 < n) (h : rr < U64) :
    pickStart rr n = (rr % n, (rr + 1) % U64) := by
  unfold pickStart
  rw [if_neg (by omega)]
  simp only [wrapDecEq rr h]

theorem pickStartN_eq (n : Nat) (hn : 0 < n) :
    ∀ N rr, rr + N ≤ U64 →
      pickStartN rr n N = (List.range N).map (fun k => (rr + k) % n) := by
  intro N
  induction N with
  | zero => intro rr _; rfl
  | succ m ih =>
    intro rr hle
    have hrr : rr < U64 := by omega
    show (pickStart rr n).1 :: pickStartN (pickStart rr n).2 n m = _
    rw [pickStart_eq rr n hn hrr]
    rcases Nat.lt_or_ge (rr + 1) U64 with h1 | h1
    · rw [List.range_succ_eq_map]
      simp only [Nat.mod_eq_of_lt h1, List.map_cons, List.map_map]
      refine congrArg₂ _ (by simp) ?_
      rw [ih (rr + 1) (by omega)]
      apply List.map_congr_left
      intro k _
      simp only [Function.comp_apply]
      congr 1
      omega
    · have hm : m = 0 := by omega
      subst hm
      simp [pickStartN, List.range_succ]

/-! ## Claim theorems -/

/-- Claim C10 counterexample: a configuration with port explicitly zero
(in the scope of the claim) but requestMaxRetries explicitly negative:
loading replaces the zero port with 8085, yet the negative retry budget
survives loading unchanged, so not all of the five fields are strictly
positive after loading. -/
theorem config_negative_survives_counterexample :
    (applyDefaults ⟨"", 0, "k", -1, 0, "", 0, 0⟩).serverPort = 8085 ∧
    (applyDefaults ⟨"", 0, "k", -1, 0, "", 0, 0⟩).requestMaxRetries = -1 ∧
    ¬(0 < (applyDefaults ⟨"", 0, "k", -1, 0, "", 0, 0⟩).requestMaxRetries) := by
  refine ⟨rfl, rfl, ?_⟩
  decide

/-- Claim C10 as amended: whichever of port, requestMaxRetries,
requestBaseDelay, requestMaxBodyBytes or maxConcurrentRequests is
explicitly zero in the decoded configuration (an absent key also decodes
to zero) is replaced, independently of the other fields, by its
documented default 8085, 3, 1000, 16 MiB or 64, each strictly positive;
hence none of these five fields can be zero after loading and a zero
retry budget cannot be expressed through the configuration file; a field
explicitly set to a negative value, however, survives loading unchanged. -/
theorem config_zero_field_defaults :
    (∀ c : Config, c.serverPort = 0 →
      (applyDefaults c).serverPort = 8085 ∧ 0 < (applyDefaults c).serverPort) ∧
    (∀ c : Config, c.requestMaxRetries = 0 →
      (applyDefaults c).requestMaxRetries = 3 ∧ 0 < (applyDefaults c).requestMaxRetries) ∧
    (∀ c : Config, c.requestBaseDelayMillis = 0 →
      (applyDefaults c).requestBaseDelayMillis = 1000 ∧
        0 < (applyDefaults c).requestBaseDelayMillis) ∧
    (∀ c : Config, c.requestMaxBodyBytes = 0 →
      (applyDefaults c).requestMaxBodyBytes = 16 * 1024 * 1024 ∧
        0 < (applyDefaults c).requestMaxBodyBytes) ∧
    (∀ c : Config, c.maxConcurrentRequests = 0 →
      (applyDefaults c).maxConcurrentRequests = 64 ∧
        0 < (applyDefaults c).maxConcurrentRequests) ∧
    (∀ c : Config,
      (applyDefaults c).serverPort ≠ 0 ∧
      (applyDefaults c).requestMaxRetries ≠ 0 ∧
      (applyDefaults c).requestBaseDelayMillis ≠ 0 ∧
      (applyDefaults c).requestMaxBodyBytes ≠ 0 ∧
      (applyDefaults c).maxConcurrentRequests ≠ 0) := by
  refine ⟨?_, ?_, ?_, ?_, ?_, ?_⟩
  · intro c h
    simp [applyDefaults, h]
  · intro c h
    simp [applyDefaults, h]
  · intro c h
    simp [applyDefaults, h]
  · intro c h
    simp [applyDefaults, h]
  · intro c h
    simp [applyDefaults, h]
  · intro c
    refine ⟨?_, ?_, ?_, ?_, ?_⟩
    · by_cases h : c.serverPort = 0 <;> simp [applyDefaults, h]
    · by_cases h : c.requestMaxRetries = 0 <;> simp [applyDefaults, h]
    · by_cases h : c.requestBaseDelayMillis = 0 <;> simp [applyDefaults, h]
    · by_cases h : c.requestMaxBodyBytes = 0 <;> simp [applyDefaults, h]
    · by_cases h : c.maxConcurrentRequests = 0 <;> simp [applyDefaults, h]

/-- Witness for the amended claim C10 at a mixed configuration: only the
port is zero, the retry budget is explicitly 5; the port gets its default
while the other fields are untouched. -/
theorem config_zero_field_defaults_witness :
    (applyDefaults ⟨"", 0, "k", 5, 70, "", 9, 8⟩).serverPort = 8085 ∧
    0 < (applyDefaults ⟨"", 0, "k", 5, 70, "", 9, 8⟩).serverPort ∧
    (applyDefaults ⟨"", 7, "k", 0, 70, "", 9, 8⟩).requestMaxRetries = 3 := by
  have h := config_zero_field_defaults
  have h1 := h.1 ⟨"", 0, "k", 5, 70, "", 9, 8⟩ rfl
  have h2 := h.2.1 ⟨"", 7, "k", 0, 70, "", 9, 8⟩ rfl
  exact ⟨h1.1, h1.2, h2.1⟩

/-- Claim C7: pickStart increments the counter and returns the
pre-increment value (the post-increment value minus one, in uint64
arithmetic) modulo the pool size; hence, while the counter does not wrap,
N successive calls return the N consecutive indices (c, c+1, ...) modulo
the pool size in counter order, and any pool-size many consecutive calls
return pairwise distinct indices. -/
theorem pickStart_round_robin :
    ∀ rr n, 0 < n → rr < U64 →
      pickStart rr n = (rr % n, (rr + 1) % U64) ∧
      (∀ N, rr + N ≤ U64 →
        pickStartN rr n N = (List.range N).map (fun k => (rr + k) % n)) ∧
      (rr + n ≤ U64 → (pickStartN rr n n).Nodup) := by
  intro rr n hn hrr
  refine ⟨pickStart_eq rr n hn hrr, fun N hle => pickStartN_eq n hn N rr hle, fun hle => ?_⟩
  rw [pickStartN_eq n hn n rr hle]
  refine List.Nodup.map_on ?_ (List.nodup_range n)
  intro x hx y hy hxy
  simp only [List.mem_range] at hx hy
  have hmod : x ≡ y [MOD n] := (Nat.ModEq.add_left_cancel' rr hxy)
  have : x % n = y % n := hmod
  rwa [Nat.mod_eq_of_lt hx, Nat.mod_eq_of_lt hy] at this

/-- Witness for claim C7: a pool of three units and counter 5 yields the
indices 2, 0, 1 over three calls. -/
theorem pickStart_round_robin_witness :
    pickStart 5 3 = (2, 6) ∧ pickStartN 5 3 3 = [2, 0, 1] := by
  have h := pickStart_round_robin 5 3 (by norm_num) (by unfold U64; norm_num)
  refine ⟨?_, ?_⟩
  · rw [h.1]
    constructor
  · rw [h.2.1 3 (by unfold U64; norm_num)]
    rfl

/-- Claim C6: project id resolution returns a non empty preset slot
without consulting the store or discovery; otherwise a store hit is cached
into the slot and returned without discovery; otherwise discovery runs, an
empty discovered id is rejected with an error, and a successful discovery
is cached into the slot and upserted into the store (when one is
configured) before being returned. -/
theorem getOrDiscoverProjectID_order :
    (∀ s store discover, s ≠ "" →
      getOrDiscoverProjectID (some s) store discover =
        ⟨.ok s, some s, [], false, false⟩) ∧
    (∀ slot pid discover, slotHit slot = none →
      getOrDiscoverProjectID slot (some (.ok (some pid))) discover =
        ⟨.ok pid, some pid, [], true, false⟩) ∧
    (∀ slot store discover, slotHit slot = none →
      (∀ pid, store ≠ some (.ok (some pid))) →
      (getOrDiscoverProjectID slot store discover).ranDiscovery = true ∧
      (∀ e, discover = .error e →
        getOrDiscoverProjectID slot store discover =
          ⟨.error e, slot, [], store.isSome, true⟩) ∧
      (discover = .ok "" →
        (getOrDiscoverProjectID slot store discover).result =
          .error ⟨false, false, "fail to discovered project"⟩) ∧
      (∀ pid, pid ≠ "" → discover = .ok pid →
        getOrDiscoverProjectID slot store discover =
          ⟨.ok pid, some pid, if store.isSome then [pid] else [], store.isSome, true⟩)) := by
  refine ⟨?_, ?_, ?_⟩
  · intro s store discover hs
    simp [getOrDiscoverProjectID, slotHit, hs]
  · intro slot pid discover hmiss
    simp [getOrDiscoverProjectID, hmiss]
  · intro slot store discover hmiss hnohit
    have hsplit :
        getOrDiscoverProjectID slot store discover =
          (match discover with
            | .error e => ⟨.error e, slot, [], store.isSome, true⟩
            | .ok pid =>
              if pid = "" then
                ⟨.error ⟨false, false, "fail to discovered project"⟩, slot, [],
                  store.isSome, true⟩
              else
                ⟨.ok pid, some pid, if store.isSome then [pid] else [],
                  store.isSome, true⟩) := by
      unfold getOrDiscoverProjectID
      rw [hmiss]
      match store with
      | none => rfl
      | some (.error e) => rfl
      | some (.ok none) => rfl
      | some (.ok (some pid)) => exact absurd rfl (hnohit pid)
    refine ⟨?_, ?_, ?_, ?_⟩
    · rw [hsplit]
      match discover with
      | .error e => rfl
      | .ok pid => by_cases h : pid = "" <;> simp [h]
    · intro e he
      rw [hsplit, he]
    · intro he
      rw [hsplit, he]
      rfl
    · intro pid hpid he
      rw [hsplit, he]
      simp [hpid]

/-- Witness for claim C6: a unit with preset slot "p" resolves to "p"
without touching store or discovery; an empty slot with a store hit "q"
resolves from the store; an empty slot, a store miss and discovery "r"
resolve through discovery with an upsert of "r". -/
theorem getOrDiscoverProjectID_order_witness :
    getOrDiscoverProjectID (some "p") (some (.ok none)) (.ok "x") =
      ⟨.ok "p", some "p", [], false, false⟩ ∧
    getOrDiscoverProjectID none (some (.ok (some "q"))) (.ok "x") =
      ⟨.ok "q", some "q", [], true, false⟩ ∧
    getOrDiscoverProjectID none (some (.ok none)) (.ok "r") =
      ⟨.ok "r", some "r", ["r"], true, true⟩ := by
  have h := getOrDiscoverProjectID_order
  refine ⟨h.1 "p" _ _ (by decide), h.2.1 none "q" _ rfl, ?_⟩
  have h3 := (h.2.2 none (some (.ok none)) (.ok "r") rfl (by intro pid h; cases h)).2.2.2
    "r" (by decide) rfl
  simpa using h3

/-- Claim C4: the retryability classifier returns true exactly when the
error is a context deadline or io.EOF, or its message contains one of the
status substrings 401, 403, 429, 5xx, or, lowercased, one of the transport
failure substrings; a nil error is not retryable and plain context
cancellation is not retryable. -/
theorem isRetryable_iff_spec :
    isRetryable none = false ∧
    isRetryable (some contextCanceled) = false ∧
    ∀ e : GoError, isRetryable (some e) = true ↔ retryableSpec (some e) := by
  refine ⟨rfl, by decide, ?_⟩
  intro e
  simp only [isRetryable, retryableSpec]
  split_ifs with h1 h2 h3 h4 h5 <;>
    simp_all [Bool.or_eq_true, not_or] <;> tauto

theorem generateContentLoop_char (n start total : Nat) (project : String)
    (attempts : Nat → UnaryAttempt) :
    ∀ fuel k lastErr tried, k + fuel = total →
      generateContentLoop n start total project attempts fuel lastErr tried =
        match (List.range' k fuel).find? (unaryDecides total project attempts) with
        | some m =>
          (unaryOutcome project attempts m,
            tried ++ (List.range' k (m + 1 - k)).map (fun i => (start + i) % n))
        | none =>
          ((none, if fuel = 0 then lastErr else lastAttemptErr project attempts (total - 1)),
            tried ++ (List.range' k fuel).map (fun i => (start + i) % n)) := by
  intro fuel
  induction fuel with
  | zero =>
    intro k lastErr tried _
    simp [generateContentLoop, List.range']
  | succ f ih =>
    intro k lastErr tried hk
    have hkval : total - (f + 1) = k := by omega
    show generateContentLoop n start total project attempts (f + 1) lastErr tried = _
    rw [List.range'_succ]
    unfold generateContentLoop
    rw [hkval]
    rcases hres : effResolve project attempts k with e | pid
    · -- resolution failure: not deciding, rotate
      have hdec : unaryDecides total project attempts k = false := by
        unfold unaryDecides
        rw [hres]
      rw [List.find?_cons_of_neg _ (by rw [hdec]; exact Bool.false_ne_true)]
      simp only [hres]
      rw [ih (k + 1) (some e) (tried ++ [(start + k) % n]) (by omega)]
      rcases hfind : (List.range' (k + 1) f).find? (unaryDecides total project attempts)
          with _ | m
      · simp only
        have hlast : (if f = 0 then some e else lastAttemptErr project attempts (total - 1)) =
            lastAttemptErr project attempts (total - 1) := by
          rcases Nat.eq_zero_or_pos f with hf | hf
          · subst hf
            have hk1 : total - 1 = k := by omega
            rw [if_pos rfl, hk1]
            unfold lastAttemptErr
            rw [hres]
          · rw [if_neg (by omega)]
        rw [hlast]
        refine congrArg₂ Prod.mk rfl ?_
        simp
      · have hm : k + 1 ≤ m := by
          have hmem := List.mem_of_find?_eq_some hfind
          have := (List.mem_range'_1.mp hmem).1
          omega
        simp only
        refine congrArg₂ Prod.mk rfl ?_
        have h1 : m + 1 - k = (m - k) + 1 := by omega
        have h2 : m + 1 - (k + 1) = m - k := by omega
        rw [h1, h2, List.range'_succ]
        simp [List.append_assoc]
    · -- resolution ok
      rcases hcall : (attempts k).call with e | resp
      · -- call failed
        rcases hstop : (decide (k + 1 = total) || !isRetryable (some e)) with _ | _
        · -- retryable, attempts remain: rotate
          have hdec : unaryDecides total project attempts k = false := by
            unfold unaryDecides
            rw [hres, hcall]
            exact hstop
          rw [List.find?_cons_of_neg _ (by rw [hdec]; exact Bool.false_ne_true)]
          simp only [hres, hcall]
          rw [if_neg (by simp [hstop])]
          rw [ih (k + 1) (some e) (tried ++ [(start + k) % n]) (by omega)]
          rcases hfind : (List.range' (k + 1) f).find? (unaryDecides total project attempts)
              with _ | m
          · simp only
            have hne : ¬(k + 1 = total) := by
              rcases Bool.or_eq_false_iff.mp hstop with ⟨ha, _⟩
              simpa using ha
            have hf : f ≠ 0 := by omega
            rw [if_neg hf]
            refine congrArg₂ Prod.mk rfl ?_
            simp
          · have hm : k + 1 ≤ m := by
              have hmem := List.mem_of_find?_eq_some hfind
              have := (List.mem_range'_1.mp hmem).1
              omega
            simp only
            refine congrArg₂ Prod.mk rfl ?_
            have h1 : m + 1 - k = (m - k) + 1 := by omega
            have h2 : m + 1 - (k + 1) = m - k := by omega
            rw [h1, h2, List.range'_succ]
            simp [List.append_assoc]
        · -- budget exhausted or not retryable: surface now
          have hdec : unaryDecides total project attempts k = true := by
            unfold unaryDecides
            rw [hres, hcall]
            exact hstop
          rw [List.find?_cons_of_pos _ hdec]
          simp only [hres, hcall, hstop, if_true]
          have hout : unaryOutcome project attempts k = (none, some e) := by
            unfold unaryOutcome
            rw [hres, hcall]
          rw [hout]
          refine congrArg₂ Prod.mk rfl ?_
          have h1 : k + 1 - k = 1 := by omega
          rw [h1]
          rfl
      · -- call succeeded
        have hdec : unaryDecides total project attempts k = true := by
          unfold unaryDecides
          rw [hres, hcall]
        rw [List.find?_cons_of_pos _ hdec]
        simp only [hres, hcall]
        have hout : unaryOutcome project attempts k = (some resp, none) := by
          unfold unaryOutcome
          rw [hres, hcall]
        rw [hout]
        refine congrArg₂ Prod.mk rfl ?_
        have h1 : k + 1 - k = 1 := by omega
        rw [h1]
        rfl

/-- Claim C3: on a non empty pool the unary dispatch is settled by the
first attempt, in the order k = 0, 1, ..., whose project id resolution
succeeds and whose call either succeeds or fails with a non retryable
error or on the last attempt; attempt k addresses pool index
(start + k) mod n; the settling attempt result is returned and no later
unit is tried; if no attempt settles (every attempt rotated), the last
attempt error is surfaced. In particular at most 1 + retries attempts are
made and the attempted indices are consecutive from start. -/
theorem GenerateContent_policy (n start retries : Nat) (project : String)
    (attempts : Nat → UnaryAttempt) (hn : 0 < n) :
    (GenerateContent n start retries project attempts =
      match (List.range (retries + 1)).find? (unaryDecides (retries + 1) project attempts) with
      | some m =>
        (unaryOutcome project attempts m,
          (List.range (m + 1)).map (fun k => (start + k) % n))
      | none =>
        ((none, lastAttemptErr project attempts retries),
          (List.range (retries + 1)).map (fun k => (start + k) % n))) ∧
    (GenerateContent n start retries project attempts).2.length ≤ retries + 1 ∧
    (GenerateContent n start retries project attempts).2 =
      (List.range (GenerateContent n start retries project attempts).2.length).map
        (fun k => (start + k) % n) := by
  have hGC : GenerateContent n start retries project attempts =
      generateContentLoop n start (retries + 1) project attempts (retries + 1) none [] := by
    unfold GenerateContent
    rw [if_neg (by omega)]
  have hchar := generateContentLoop_char n start (retries + 1) project attempts
    (retries + 1) 0 none [] (by omega)
  rw [← List.range_eq_range'] at hchar
  have hmain : GenerateContent n start retries project attempts =
      match (List.range (retries + 1)).find? (unaryDecides (retries + 1) project attempts) with
      | some m =>
        (unaryOutcome project attempts m,
          (List.range (m + 1)).map (fun k => (start + k) % n))
      | none =>
        ((none, lastAttemptErr project attempts retries),
          (List.range (retries + 1)).map (fun k => (start + k) % n)) := by
    rw [hGC, hchar]
    rcases hf : (List.range (retries + 1)).find? (unaryDecides (retries + 1) project attempts)
        with _ | m
    · simp only [if_neg (Nat.succ_ne_zero retries), List.nil_append]
      have h1 : retries + 1 - 1 = retries := by omega
      rw [h1]
    · simp only [List.nil_append]
      have h1 : m + 1 - 0 = m + 1 := by omega
      rw [h1, ← List.range_eq_range']
  refine ⟨hmain, ?_, ?_⟩
  · rw [hmain]
    rcases hf : (List.range (retries + 1)).find? (unaryDecides (retries + 1) project attempts)
        with _ | m
    · simp
    · have hmem := List.mem_of_find?_eq_some hf
      have hm : m < retries + 1 := List.mem_range.mp hmem
      simp only [List.length_map, List.length_range]
      omega
  · rw [hmain]
    rcases hf : (List.range (retries + 1)).find? (unaryDecides (retries + 1) project attempts)
        with _ | m <;> simp

/-- Witness for claim C3: pool of two units, one retry; attempt 0 fails
with a retryable 429 error, attempt 1 succeeds: the dispatch returns the
second attempt response and tried pool indices 1 then 0 (start = 1). -/
theorem GenerateContent_policy_witness :
    GenerateContent 2 1 1 ""
      (fun k => if k = 0 then
          ⟨.ok "p", .error ⟨false, false, "upstream status 429: x"⟩⟩
        else ⟨.ok "p", .ok GeminiAPIResponse.zero⟩) =
      ((some GeminiAPIResponse.zero, none), [1, 0]) := by
  have h := (GenerateContent_policy 2 1 1 ""
      (fun k => if k = 0 then
          ⟨.ok "p", .error ⟨false, false, "upstream status 429: x"⟩⟩
        else ⟨.ok "p", .ok GeminiAPIResponse.zero⟩) (by norm_num)).1
  rw [h]
  rfl

theorem explicitUnits_char (path : String) :
    ∀ l idx0,
      (explicitUnits path idx0 l).1.map (fun u => (u.path, u.preset)) =
        (l.filter (fun pid => !(pid == "_auto"))).map (fun pid => (path, some pid)) ∧
      (explicitUnits path idx0 l).2 =
        idx0 + (l.filter (fun pid => !(pid == "_auto"))).length := by
  intro l
  induction l with
  | nil => intro idx0; simp [explicitUnits]
  | cons pid rest ih =>
    intro idx0
    by_cases h : pid = "_auto"
    · subst h
      simpa [explicitUnits, List.filter_cons] using ih idx0
    · have hb2 : (pid == "_auto") = false := by simpa using h
      refine ⟨?_, ?_⟩
      · simp only [explicitUnits, if_neg h, List.filter_cons, hb2, Bool.not_false, if_true,
          List.map_cons]
        exact congrArg _ (ih (idx0 + 1)).1
      · simp only [explicitUnits, if_neg h, List.filter_cons, hb2, Bool.not_false, if_true,
          List.length_cons]
        rw [(ih (idx0 + 1)).2]
        omega

/-- Claim C5 counterexample: for a credential "c" configured with the
project list ["_auto", "p1"], the built units are the explicit unit for
"p1" followed by the discovery unit, not the configured list order
(discovery unit first) that the claim asserts. -/
theorem NewMultiClient_auto_position_counterexample :
    (newMultiClientEntries (fun p => if p = "c" then some ["_auto", "p1"] else none)
        ["c"] 0).map PoolUnit.preset ≠
      specPresetsInListOrder ["_auto", "p1"] := by
  decide

theorem newMultiClientEntries_cons_some (pm : String → Option (List String))
    (path : String) (rest : List String) (idx0 : Nat) (u : String) (us : List String)
    (hpm : pm path = some (u :: us)) :
    newMultiClientEntries pm (path :: rest) idx0 =
      (explicitUnits path idx0 (u :: us)).1 ++
      (if (u :: us).contains "_auto" then
        [⟨(explicitUnits path idx0 (u :: us)).2, path, none⟩] else []) ++
      newMultiClientEntries pm rest
        (if (u :: us).contains "_auto" then (explicitUnits path idx0 (u :: us)).2 + 1
          else (explicitUnits path idx0 (u :: us)).2) := by
  conv_lhs => rw [newMultiClientEntries]
  rw [hpm]

/-- Claim C5 as amended: for a credential with a non empty configured
list, construction yields one unit per non sentinel entry in list order,
followed by a single discovery unit exactly when "_auto" occurs anywhere
in the list (repeated sentinels still yield one unit); a credential absent
from the map or mapped to an empty list yields one discovery unit; and
construction fails exactly when the resulting pool is empty. -/
theorem NewMultiClient_construction :
    (∀ pm path (rest : List String) idx0 l, pm path = some l → l ≠ [] →
      (newMultiClientEntries pm (path :: rest) idx0).map (fun u => (u.path, u.preset)) =
        ((l.filter (fun pid => !(pid == "_auto"))).map (fun pid => (path, some pid)) ++
          (if l.contains "_auto" then [(path, (none : Option String))] else [])) ++
        (newMultiClientEntries pm rest
            (idx0 + (l.filter (fun pid => !(pid == "_auto"))).length +
              (if l.contains "_auto" then 1 else 0))).map (fun u => (u.path, u.preset))) ∧
    (∀ pm path (rest : List String) idx0, pm path = none →
      newMultiClientEntries pm (path :: rest) idx0 =
        ⟨idx0, path, none⟩ :: newMultiClientEntries pm rest (idx0 + 1)) ∧
    (∀ pm path (rest : List String) idx0, pm path = some [] →
      newMultiClientEntries pm (path :: rest) idx0 =
        ⟨idx0, path, none⟩ :: newMultiClientEntries pm rest (idx0 + 1)) ∧
    (∀ sources pm, (newMultiClientEntries pm sources 0 = [] →
        NewMultiClient sources pm = .error ⟨false, false, "no valid credentials provided"⟩) ∧
      (newMultiClientEntries pm sources 0 ≠ [] →
        NewMultiClient sources pm = .ok (newMultiClientEntries pm sources 0))) := by
  refine ⟨?_, ?_, ?_, ?_⟩
  · intro pm path rest idx0 l hpm hne
    match l, hne with
    | u :: us, _ =>
      rw [newMultiClientEntries_cons_some pm path rest idx0 u us hpm]
      have hex := explicitUnits_char path (u :: us) idx0
      rcases hb : (u :: us).contains "_auto" with _ | _ <;>
        simp [hb, hex.1, hex.2, List.map_append, List.append_assoc]
  · intro pm path rest idx0 hpm
    conv_lhs => rw [newMultiClientEntries]
    rw [hpm]
  · intro pm path rest idx0 hpm
    conv_lhs => rw [newMultiClientEntries]
    rw [hpm]
  · intro sources pm
    constructor
    · intro hempty
      unfold NewMultiClient
      rw [if_pos (by simpa [List.isEmpty_iff] using hempty)]
    · intro hne
      unfold NewMultiClient
      rw [if_neg (by simpa [List.isEmpty_iff] using hne)]

/-- Witness for the amended claim C5: credential "c" with list
["_auto", "p1"] yields the explicit "p1" unit then one discovery unit;
an unmentioned credential "d" yields one discovery unit; the resulting
pool is accepted by construction. -/
theorem NewMultiClient_construction_witness :
    (newMultiClientEntries (fun p => if p = "c" then some ["_auto", "p1"] else none)
        ["c", "d"] 0).map (fun u => (u.path, u.preset)) =
      [("c", some "p1"), ("c", none), ("d", none)] ∧
    NewMultiClient ["c", "d"] (fun p => if p = "c" then some ["_auto", "p1"] else none) =
      .ok [⟨0, "c", some "p1"⟩, ⟨1, "c", none⟩, ⟨2, "d", none⟩] := by
  have h := NewMultiClient_construction
  constructor
  · have h1 := h.1 (fun p => if p = "c" then some ["_auto", "p1"] else none)
      "c" ["d"] 0 ["_auto", "p1"] (by decide) (by decide)
    rw [h1]
    decide
  · have h4 := (h.2.2.2 ["c", "d"]
      (fun p => if p = "c" then some ["_auto", "p1"] else none)).2 (by decide)
    rw [h4]
    rfl

theorem lookupField_insert_ne (k k2 : String) (v : JVal) (hne : k2 ≠ k) :
    ∀ m, lookupField k (mapInsertKV m k2 v) = lookupField k m := by
  intro m
  induction m with
  | nil => simp [mapInsertKV, lookupField, hne]
  | cons p rest ih =>
    match p with
    | (a, b) =>
      unfold mapInsertKV
      by_cases ha : a = k2
      · rw [if_pos ha]
        unfold lookupField
        rw [if_neg hne, if_neg (ha ▸ hne)]
      · rw [if_neg ha]
        unfold lookupField
        by_cases hk : a = k
        · rw [if_pos hk, if_pos hk]
        · rw [if_neg hk, if_neg hk]
          exact ih

theorem lookupField_insert_self (k : String) (v : JVal) :
    ∀ m, lookupField k (mapInsertKV m k v) = some v := by
  intro m
  induction m with
  | nil => simp [mapInsertKV, lookupField]
  | cons p rest ih =>
    match p with
    | (a, b) =>
      unfold mapInsertKV
      by_cases ha : a = k
      · rw [if_pos ha]
        unfold lookupField
        rw [if_pos rfl]
      · rw [if_neg ha]
        unfold lookupField
        rw [if_neg ha]
        exact ih

theorem lookupField_foldl_not_mem (k : String) :
    ∀ (l : List (String × JVal)) (m0 : List (String × JVal)),
      k ∉ l.map Prod.fst →
      lookupField k (l.foldl (fun m p => mapInsertKV m p.1 p.2) m0) = lookupField k m0 := by
  intro l
  induction l with
  | nil => intro m0 _; rfl
  | cons p rest ih =>
    intro m0 hk
    simp only [List.map_cons, List.mem_cons, not_or] at hk
    simp only [List.foldl_cons]
    rw [ih (mapInsertKV m0 p.1 p.2) hk.2]
    exact lookupField_insert_ne k p.1 p.2 (fun h => hk.1 h.symm) m0

theorem lookupField_foldl_mem (k : String) (v : JVal) :
    ∀ (l : List (String × JVal)) (m0 : List (String × JVal)),
      (k, v) ∈ l → (l.map Prod.fst).Nodup →
      lookupField k (l.foldl (fun m p => mapInsertKV m p.1 p.2) m0) = some v := by
  intro l
  induction l with
  | nil => intro m0 h _; cases h
  | cons p rest ih =>
    intro m0 hmem hnd
    simp only [List.map_cons, List.nodup_cons] at hnd
    simp only [List.foldl_cons]
    rcases List.mem_cons.mp hmem with h | h
    · have hk : p.1 = k := by rw [← h]
      have hv : p.2 = v := by rw [← h]
      have hnot : k ∉ rest.map Prod.fst := by
        rw [← hk]
        exact hnd.1
      rw [lookupField_foldl_not_mem k rest _ hnot, ← hk, ← hv]
      exact lookupField_insert_self p.1 p.2 m0
    · refine ih _ h hnd.2

theorem lookupField_some_mem (k : String) (v : JVal) :
    ∀ m, lookupField k m = some v → (k, v) ∈ m := by
  intro m
  induction m with
  | nil => intro h; cases h
  | cons p rest ih =>
    intro h
    unfold lookupField at h
    by_cases hp : p.1 = k
    · rw [if_pos hp] at h
      have hv : p.2 = v := by injection h
      have hpk : p = (k, v) := by
        obtain ⟨a, b⟩ := p
        simp only at hp hv
        rw [hp, hv]
      rw [hpk]
      exact List.mem_cons_self _ _
    · rw [if_neg hp] at h
      exact List.mem_cons_of_mem _ (ih h)

theorem lookupField_none_not_mem (k : String) :
    ∀ m, lookupField k m = none → k ∉ m.map Prod.fst := by
  intro m
  induction m with
  | nil => intro _ h; cases h
  | cons p rest ih =>
    intro h
    unfold lookupField at h
    by_cases hp : p.1 = k
    · rw [if_pos hp] at h
      cases h
    · rw [if_neg hp] at h
      simp only [List.map_cons, List.mem_cons, not_or]
      exact ⟨fun hc => hp hc.symm, ih h⟩

theorem mem_keys_dedupKeepLast (a : String) :
    ∀ fs, a ∈ (dedupKeepLast fs).map Prod.fst → a ∈ fs.map Prod.fst := by
  intro fs
  induction fs with
  | nil => intro h; cases h
  | cons p rest ih =>
    intro h
    unfold dedupKeepLast at h
    by_cases hc : (rest.map Prod.fst).contains p.1
    · rw [if_pos hc] at h
      exact List.mem_cons_of_mem _ (ih h)
    · rw [if_neg hc] at h
      simp only [List.map_cons, List.mem_cons] at h ⊢
      rcases h with h | h
      · exact Or.inl h
      · exact Or.inr (ih h)

theorem dedupKeepLast_keys_nodup :
    ∀ fs, ((dedupKeepLast fs).map Prod.fst).Nodup := by
  intro fs
  induction fs with
  | nil => exact List.nodup_nil
  | cons p rest ih =>
    unfold dedupKeepLast
    by_cases hc : (rest.map Prod.fst).contains p.1
    · rw [if_pos hc]
      exact ih
    · rw [if_neg hc]
      simp only [List.map_cons, List.nodup_cons]
      refine ⟨fun hmem => ?_, ih⟩
      have := mem_keys_dedupKeepLast p.1 rest hmem
      exact hc (by simpa using this)

theorem unmarshal_unknownFields (fs : List (String × JVal)) (gr : GeminiRequest)
    (h : unmarshalGeminiRequest (JVal.obj fs) = .ok gr) :
    gr.unknownFields =
      (dedupKeepLast fs).filter (fun p => !(knownRequestKeys.contains p.1)) := by
  unfold unmarshalGeminiRequest at h
  simp only [jvalToMap] at h
  rcases h1 : decodeFieldD (dedupKeepLast fs) "systemInstruction" none
      (decodePtr decodeGeminiContent) with e1 | si
  · rw [h1] at h
    simp [bind, Except.bind] at h
  rcases h2 : decodeFieldD (dedupKeepLast fs) "contents" none decodeContents with e2 | cs
  · rw [h1, h2] at h
    simp [bind, Except.bind] at h
  rcases h3 : decodeFieldD (dedupKeepLast fs) "generationConfig" none
      (decodePtr decodeGenerationConfig) with e3 | gc
  · rw [h1, h2, h3] at h
    simp [bind, Except.bind] at h
  rw [h1, h2, h3] at h
  simp only [bind, Except.bind, Except.ok.injEq] at h
  rw [← h]

/-- Claim C8: decoding a JSON object into GeminiRequest and re-serializing
preserves every top level field other than the three known keys: looking
such a key up in the marshalled object yields exactly the value the
decoded raw map held for it (for well formed objects, the original value). -/
theorem GeminiRequest_roundtrip_unknown_fields (fs : List (String × JVal))
    (gr : GeminiRequest) (h : unmarshalGeminiRequest (JVal.obj fs) = .ok gr) :
    ∀ k, knownRequestKeys.contains k = false →
      lookupField k (marshalGeminiRequestFields gr) = lookupField k (dedupKeepLast fs) := by
  intro k hk
  have hk3 : ¬(k = "systemInstruction") ∧ ¬(k = "contents") ∧ ¬(k = "generationConfig") := by
    simpa [knownRequestKeys, not_or] using hk
  have hunk := unmarshal_unknownFields fs gr h
  have hnd : ((dedupKeepLast fs).map Prod.fst).Nodup := dedupKeepLast_keys_nodup fs
  have hndf : (((dedupKeepLast fs).filter
      (fun p => !(knownRequestKeys.contains p.1))).map Prod.fst).Nodup :=
    List.Nodup.sublist (List.Sublist.map _ (List.filter_sublist _)) hnd
  unfold marshalGeminiRequestFields
  rw [hunk]
  rcases hl : lookupField k (dedupKeepLast fs) with _ | v
  · have hnotmem := lookupField_none_not_mem k _ hl
    have hnot2 : k ∉ (((dedupKeepLast fs).filter
        (fun p => !(knownRequestKeys.contains p.1))).map Prod.fst) := by
      intro hmem
      apply hnotmem
      rcases List.mem_map.mp hmem with ⟨p, hp, hpk⟩
      have hp2 := List.mem_of_mem_filter hp
      exact hpk ▸ List.mem_map_of_mem Prod.fst hp2
    rw [lookupField_foldl_not_mem k _ _ hnot2]
    have e1 : ¬("systemInstruction" = k) := fun hx => hk3.1 hx.symm
    have e2 : ¬("contents" = k) := fun hx => hk3.2.1 hx.symm
    have e3 : ¬("generationConfig" = k) := fun hx => hk3.2.2 hx.symm
    rcases gr.systemInstruction with _ | si <;> rcases gr.generationConfig with _ | gc <;>
      simp [lookupField, e1, e2, e3]
  · have hmem := lookupField_some_mem k v _ hl
    have hmemf : (k, v) ∈ (dedupKeepLast fs).filter
        (fun p => !(knownRequestKeys.contains p.1)) := by
      rw [List.mem_filter]
      exact ⟨hmem, by simp only [hk, Bool.not_false]⟩
    exact lookupField_foldl_mem k v _ _ hmemf hndf

/-- Witness for claim C8: a request body carrying contents plus the
unknown keys safetySettings and customField round-trips with both keys
intact and their values unchanged. -/
theorem GeminiRequest_roundtrip_unknown_fields_witness :
    lookupField "safetySettings" (marshalGeminiRequestFields
      ⟨none, some [], none,
        [("safetySettings", .arr [.str "s"]), ("customField", .str "customValue")]⟩) =
      some (.arr [.str "s"]) ∧
    lookupField "customField" (marshalGeminiRequestFields
      ⟨none, some [], none,
        [("safetySettings", .arr [.str "s"]), ("customField", .str "customValue")]⟩) =
      some (.str "customValue") := by
  have h := GeminiRequest_roundtrip_unknown_fields
    [("contents", .arr []), ("safetySettings", .arr [.str "s"]),
      ("customField", .str "customValue")]
    ⟨none, some [], none,
      [("safetySettings", .arr [.str "s"]), ("customField", .str "customValue")]⟩
    rfl
  constructor
  · rw [h "safetySettings" rfl]
    rfl
  · rw [h "customField" rfl]
    rfl

theorem dataLine_shape (line : String) (h : goStarts line "data: " = true) :
    line ≠ "" ∧ goStarts line ":" = false := by
  obtain ⟨cs⟩ := line
  match cs with
  | [] => exact absurd h (by decide)
  | c :: rest =>
    have hpat : ("data: ").data = ['d', 'a', 't', 'a', ':', ' '] := rfl
    unfold goStarts at h
    rw [hpat] at h
    unfold listStarts at h
    have hc : c = 'd' := by
      rcases Bool.and_eq_true_iff.mp h with ⟨h1, _⟩
      exact (of_decide_eq_true h1).symm
    subst hc
    constructor
    · intro hx
      have hdat := congrArg String.data hx
      simp only at hdat
      cases hdat
    · unfold goStarts
      rw [show (":").data = [':'] from rfl]
      unfold listStarts
      simp

theorem parseSSELine_data (pj : String → Option JVal) (line : String)
    (h : goStarts line "data: " = true) :
    parseSSELine pj line =
      (if goTrimSpace (goDrop line 6) = "[DONE]" then none
        else parseSSEData pj (goTrimSpace (goDrop line 6))) := by
  have hsh := dataLine_shape line h
  unfold parseSSELine
  rw [if_neg (by simp [hsh.1, hsh.2]), if_pos h]

theorem parseSSEStream_cons (pj : String → Option JVal) (cb : GeminiAPIResponse → Option ε)
    (line : String) (rest : List String) :
    parseSSEStream pj cb (line :: rest) =
      (match parseSSELine pj line with
        | none => parseSSEStream pj cb rest
        | some resp =>
          match cb resp with
          | some e => ([resp], some e)
          | none =>
            ((resp :: (parseSSEStream pj cb rest).1), (parseSSEStream pj cb rest).2)) := rfl

theorem sseEvents_cons (pj : String → Option JVal) (line : String) (rest : List String) :
    sseEvents pj (line :: rest) =
      (match parseSSELine pj line with
        | none => sseEvents pj rest
        | some resp => resp :: sseEvents pj rest) := rfl

theorem parseSSEStream_all_ok (pj : String → Option JVal) (cb : GeminiAPIResponse → Option ε)
    (hcb : ∀ r, cb r = none) :
    ∀ lines, parseSSEStream pj cb lines = (sseEvents pj lines, none) := by
  intro lines
  induction lines with
  | nil => rfl
  | cons line rest ih =>
    rw [parseSSEStream_cons, sseEvents_cons]
    rcases hpl : parseSSELine pj line with _ | r
    · exact ih
    · dsimp only
      rw [hcb r, ih]

theorem parseSSEStream_trace (pj : String → Option JVal) (cb : GeminiAPIResponse → Option ε) :
    ∀ lines,
      (∃ t, sseEvents pj lines = (parseSSEStream pj cb lines).1 ++ t) ∧
      (∀ e, (parseSSEStream pj cb lines).2 = some e →
        ∃ ds d, (parseSSEStream pj cb lines).1 = ds ++ [d] ∧ cb d = some e ∧
          ∀ x ∈ ds, cb x = none) := by
  intro lines
  induction lines with
  | nil =>
    refine ⟨⟨[], rfl⟩, ?_⟩
    intro e he
    cases he
  | cons line rest ih =>
    rw [parseSSEStream_cons, sseEvents_cons]
    rcases hpl : parseSSELine pj line with _ | r
    · exact ih
    · dsimp only
      rcases hcb : cb r with _ | e0
      · dsimp only
        obtain ⟨⟨t, ht⟩, herr⟩ := ih
        refine ⟨⟨t, by rw [ht]; rfl⟩, ?_⟩
        intro e he
        obtain ⟨ds, d, h1, h2, h3⟩ := herr e he
        refine ⟨r :: ds, d, by rw [h1]; rfl, h2, ?_⟩
        intro x hx
        rcases List.mem_cons.mp hx with hx | hx
        · rw [hx, hcb]
        · exact h3 x hx
      · dsimp only
        refine ⟨⟨sseEvents pj rest, rfl⟩, ?_⟩
        intro e he
        have he2 : e0 = e := by injection he
        refine ⟨[], r, rfl, by rw [hcb, he2], ?_⟩
        intro x hx
        cases hx

/-- Claim C9: the SSE parser works line by line: blank and comment lines
produce no event; a data line has its payload trimmed and the [DONE]
sentinel produces no event; a payload the JSON parser rejects, or that is
not an object, is skipped without aborting; an object with a response
field yields the event decoded from that field, with the top level
usageMetadata merged in exactly when the decoded response lacks its own;
an object without a response field is decoded whole; events are delivered
to the callback in input order and a callback error aborts the read. -/
theorem parseSSEStream_spec (pj : String → Option JVal) (cb : GeminiAPIResponse → Option ε) :
    (∀ rest, parseSSEStream pj cb ("" :: rest) = parseSSEStream pj cb rest) ∧
    (∀ line rest, goStarts line ":" = true →
      parseSSEStream pj cb (line :: rest) = parseSSEStream pj cb rest) ∧
    (∀ line rest, goStarts line "data: " = true →
      goTrimSpace (goDrop line 6) = "[DONE]" →
      parseSSEStream pj cb (line :: rest) = parseSSEStream pj cb rest) ∧
    (∀ data, pj data = none → parseSSEData pj data = none) ∧
    (∀ data j, pj data = some j → jvalToMap j = none → parseSSEData pj data = none) ∧
    (∀ data j raw rj resp, pj data = some j → jvalToMap j = some raw →
      lookupField "response" raw = some rj → decodeGeminiAPIResponse rj = .ok resp →
      ((∀ u, resp.usageMetadata = some u → parseSSEData pj data = some resp) ∧
        (resp.usageMetadata = none → lookupField "usageMetadata" raw = none →
          parseSSEData pj data = some resp) ∧
        (∀ uj u, resp.usageMetadata = none → lookupField "usageMetadata" raw = some uj →
          decodeUsageMetadata uj = .ok u →
          parseSSEData pj data = some { resp with usageMetadata := some u }))) ∧
    (∀ data j raw, pj data = some j → jvalToMap j = some raw →
      lookupField "response" raw = none →
      parseSSEData pj data =
        (match decodeGeminiAPIResponse j with
          | .error _ => none
          | .ok resp => some resp)) ∧
    ((∀ r, cb r = none) →
      ∀ lines, parseSSEStream pj cb lines = (sseEvents pj lines, none)) ∧
    (∀ lines,
      (∃ t, sseEvents pj lines = (parseSSEStream pj cb lines).1 ++ t) ∧
      (∀ e, (parseSSEStream pj cb lines).2 = some e →
        ∃ ds d, (parseSSEStream pj cb lines).1 = ds ++ [d] ∧ cb d = some e ∧
          ∀ x ∈ ds, cb x = none)) := by
  refine ⟨fun rest => rfl, ?_, ?_, ?_, ?_, ?_, ?_, parseSSEStream_all_ok pj cb,
    parseSSEStream_trace pj cb⟩
  · intro line rest hc
    rw [parseSSEStream_cons]
    rw [show parseSSELine pj line = none from by
      unfold parseSSELine
      rw [if_pos (by simp [hc])]]
  · intro line rest hdata hdone
    rw [parseSSEStream_cons]
    rw [show parseSSELine pj line = none from by
      rw [parseSSELine_data pj line hdata, if_pos hdone]]
  · intro data hpj
    unfold parseSSEData
    rw [hpj]
  · intro data j hpj hmap
    unfold parseSSEData
    rw [hpj]
    dsimp only
    rw [hmap]
  · intro data j raw rj resp hpj hmap hresp hdec
    have hbase : parseSSEData pj data =
        (let usage :=
          match lookupField "usageMetadata" raw with
          | some uj =>
            match decodeUsageMetadata uj with
            | .ok u => some u
            | .error _ => none
          | none => none
        match resp.usageMetadata, usage with
        | none, some u => some { resp with usageMetadata := some u }
        | _, _ => some resp) := by
      unfold parseSSEData
      rw [hpj]
      dsimp only
      rw [hmap]
      dsimp only
      rw [hresp]
      dsimp only
      rw [hdec]
    refine ⟨?_, ?_, ?_⟩
    · intro u hu
      rw [hbase]
      simp only [hu]
    · intro hu hum
      rw [hbase]
      simp only [hu, hum]
    · intro uj u hu hum hdu
      rw [hbase]
      simp only [hu, hum, hdu]
  · intro data j raw hpj hmap hresp
    unfold parseSSEData
    rw [hpj]
    dsimp only
    rw [hmap]
    dsimp only
    rw [hresp]

/-- Witness for claim C9: a stream of a blank line, a comment, a [DONE]
sentinel, an envelope data line and a non data line delivers exactly the
decoded envelope response, in order, with no callback error. The text
level JSON parser is instantiated to recognise the payload E as an
envelope object with an empty response object. -/
theorem parseSSEStream_spec_witness :
    parseSSEStream
      (fun s => if s = "E" then some (.obj [("response", .obj [])]) else none)
      (fun _ => (none : Option Unit))
      ["", ": comment", "data: [DONE]", "data: E", "event: x"] =
      ([GeminiAPIResponse.zero], none) := by
  have h := (parseSSEStream_spec
    (fun s => if s = "E" then some (.obj [("response", .obj [])]) else none)
    (fun _ => (none : Option Unit))).2.2.2.2.2.2.2.1 (fun r => rfl)
    ["", ": comment", "data: [DONE]", "data: E", "event: x"]
  rw [h]
  rfl

theorem allSendOut_nil : allSendOut [] := by
  intro a ha
  cases ha

theorem runInner_rotate_conditions (canR : Bool) :
    ∀ obs sentAny upOpen e,
      (runInner canR sentAny upOpen obs).2 = .rotate e →
      sentAny = false ∧ canR = true ∧ isRetryable (some e) = true := by
  intro obs
  induction obs with
  | nil =>
    intro sA up e h
    exact InnerOutcome.noConfusion h
  | cons o rest ih =>
    intro sA up e h
    match o with
    | .event g =>
      have heq : (runInner canR sA up (.event g :: rest)).2 =
          (runInner canR true up rest).2 := rfl
      rw [heq] at h
      have hcond := ih true up e h
      exact absurd hcond.1 (by simp)
    | .outClosed =>
      rcases hup : up with _ | _
      · rw [hup] at h
        have heq : (runInner canR sA false (.outClosed :: rest)).2 = .returned := rfl
        rw [heq] at h
        exact InnerOutcome.noConfusion h
      · rw [hup] at h
        match rest with
        | [] => exact InnerOutcome.noConfusion h
        | .event g :: r2 => exact InnerOutcome.noConfusion h
        | .outClosed :: r2 => exact InnerOutcome.noConfusion h
        | .errValue (some e2) :: r2 => exact InnerOutcome.noConfusion h
        | .errValue none :: r2 => exact InnerOutcome.noConfusion h
        | .errsClosed :: r2 => exact InnerOutcome.noConfusion h
        | .ctxDone e2 :: r2 => exact InnerOutcome.noConfusion h
    | .errValue x =>
      rcases hup : up with _ | _
      · rw [hup] at h
        have heq : (runInner canR sA false (.errValue x :: rest)).2 = .blocked := by
          match x with
          | none => rfl
          | some e2 => rfl
        rw [heq] at h
        exact InnerOutcome.noConfusion h
      · rw [hup] at h
        match x with
        | none => exact ih sA false e h
        | some e2 =>
          have heq0 : runInner canR sA true (.errValue (some e2) :: rest) =
              (if !sA && canR && isRetryable (some e2) then
                (([] : List OuterAct), InnerOutcome.rotate e2)
              else ([OuterAct.sendErr e2, OuterAct.closeOut, OuterAct.closeErr],
                InnerOutcome.returned)) := rfl
          by_cases hc : (!sA && canR && isRetryable (some e2)) = true
          · rw [heq0, if_pos hc] at h
            have he : e2 = e := by injection h
            subst he
            rcases Bool.and_eq_true_iff.mp hc with ⟨h12, h3⟩
            rcases Bool.and_eq_true_iff.mp h12 with ⟨h1, h2⟩
            exact ⟨by simpa using h1, h2, h3⟩
          · rw [heq0, if_neg hc] at h
            exact InnerOutcome.noConfusion h
    | .errsClosed =>
      rcases hup : up with _ | _
      · rw [hup] at h
        exact InnerOutcome.noConfusion h
      · rw [hup] at h
        exact ih sA false e h
    | .ctxDone e2 =>
      have heq : (runInner canR sA up (.ctxDone e2 :: rest)).2 = .returned := rfl
      rw [heq] at h
      exact InnerOutcome.noConfusion h

theorem runInner_structure (canR : Bool) :
    ∀ obs sentAny upOpen,
      ((runInner canR sentAny upOpen obs).2 = .returned →
        ∃ t, allSendOut t ∧
          ((∃ e, (runInner canR sentAny upOpen obs).1 =
              t ++ [.sendErr e, .closeOut, .closeErr]) ∨
            (runInner canR sentAny upOpen obs).1 = t ++ [.closeOut, .closeErr])) ∧
      (∀ e, (runInner canR sentAny upOpen obs).2 = .rotate e →
        (runInner canR sentAny upOpen obs).1 = []) ∧
      ((runInner canR sentAny upOpen obs).2 = .blocked →
        allSendOut (runInner canR sentAny upOpen obs).1) := by
  intro obs
  induction obs with
  | nil =>
    intro sentAny upOpen
    refine ⟨?_, ?_, ?_⟩
    · intro h
      exact InnerOutcome.noConfusion h
    · intro e _
      rfl
    · intro _ a ha
      cases ha
  | cons o rest ih =>
    intro sentAny upOpen
    match o with
    | .event g =>
      have heq : runInner canR sentAny upOpen (.event g :: rest) =
          (.sendOut g :: (runInner canR true upOpen rest).1,
            (runInner canR true upOpen rest).2) := rfl
      rw [heq]
      obtain ⟨ihr, _, ihb⟩ := ih true upOpen
      refine ⟨?_, ?_, ?_⟩
      · intro h
        obtain ⟨t, ht, hcase⟩ := ihr h
        refine ⟨.sendOut g :: t, ?_, ?_⟩
        · intro a ha
          rcases List.mem_cons.mp ha with ha | ha
          · exact ⟨g, ha⟩
          · exact ht a ha
        · rcases hcase with ⟨e, he⟩ | he
          · refine Or.inl ⟨e, ?_⟩
            show OuterAct.sendOut g :: (runInner canR true upOpen rest).1 = _
            rw [he]
            rfl
          · refine Or.inr ?_
            show OuterAct.sendOut g :: (runInner canR true upOpen rest).1 = _
            rw [he]
            rfl
      · intro e h
        have hcond := runInner_rotate_conditions canR rest true upOpen e h
        exact absurd hcond.1 (by simp)
      · intro h a ha
        rcases List.mem_cons.mp ha with ha | ha
        · exact ⟨g, ha⟩
        · exact ihb h a ha
    | .outClosed =>
      rcases hup : upOpen with _ | _
      · refine ⟨?_, ?_, ?_⟩
        · intro _
          exact ⟨[], allSendOut_nil, Or.inr rfl⟩
        · intro e h
          exact InnerOutcome.noConfusion h
        · intro h
          exact InnerOutcome.noConfusion h
      · match rest with
        | [] =>
          refine ⟨fun h => InnerOutcome.noConfusion h, fun e _ => rfl,
            fun _ => allSendOut_nil⟩
        | .event g :: r2 =>
          refine ⟨fun h => InnerOutcome.noConfusion h, fun e _ => rfl,
            fun _ => allSendOut_nil⟩
        | .outClosed :: r2 =>
          refine ⟨fun h => InnerOutcome.noConfusion h, fun e _ => rfl,
            fun _ => allSendOut_nil⟩
        | .errValue (some e2) :: r2 =>
          refine ⟨fun _ => ⟨[], allSendOut_nil, Or.inl ⟨e2, rfl⟩⟩,
            fun e h => InnerOutcome.noConfusion h, fun h => InnerOutcome.noConfusion h⟩
        | .errValue none :: r2 =>
          refine ⟨fun _ => ⟨[], allSendOut_nil, Or.inr rfl⟩,
            fun e h => InnerOutcome.noConfusion h, fun h => InnerOutcome.noConfusion h⟩
        | .errsClosed :: r2 =>
          refine ⟨fun _ => ⟨[], allSendOut_nil, Or.inr rfl⟩,
            fun e h => InnerOutcome.noConfusion h, fun h => InnerOutcome.noConfusion h⟩
        | .ctxDone e2 :: r2 =>
          refine ⟨fun _ => ⟨[], allSendOut_nil, Or.inl ⟨e2, rfl⟩⟩,
            fun e h => InnerOutcome.noConfusion h, fun h => InnerOutcome.noConfusion h⟩
    | .errValue x =>
      rcases hup : upOpen with _ | _
      · have heq : runInner canR sentAny false (.errValue x :: rest) =
            (([] : List OuterAct), InnerOutcome.blocked) := by
          match x with
          | none => rfl
          | some e2 => rfl
        rw [heq]
        refine ⟨fun h => InnerOutcome.noConfusion h, fun e h => rfl,
          fun _ => allSendOut_nil⟩
      · match x with
        | none =>
          have heq : runInner canR sentAny true (.errValue none :: rest) =
              runInner canR sentAny false rest := rfl
          rw [heq]
          exact ih sentAny false
        | some e2 =>
          have heq0 : runInner canR sentAny true (.errValue (some e2) :: rest) =
              (if !sentAny && canR && isRetryable (some e2) then
                (([] : List OuterAct), InnerOutcome.rotate e2)
              else ([OuterAct.sendErr e2, OuterAct.closeOut, OuterAct.closeErr],
                InnerOutcome.returned)) := rfl
          rw [heq0]
          by_cases hc : (!sentAny && canR && isRetryable (some e2)) = true
          · rw [if_pos hc]
            refine ⟨fun h => InnerOutcome.noConfusion h, fun e _ => rfl,
              fun h => InnerOutcome.noConfusion h⟩
          · rw [if_neg hc]
            refine ⟨fun _ => ⟨[], allSendOut_nil, Or.inl ⟨e2, rfl⟩⟩,
              fun e h => InnerOutcome.noConfusion h, fun h => InnerOutcome.noConfusion h⟩
    | .errsClosed =>
      rcases hup : upOpen with _ | _
      · refine ⟨fun h => InnerOutcome.noConfusion h, fun e h => rfl,
          fun _ => allSendOut_nil⟩
      · have heq : runInner canR sentAny true (.errsClosed :: rest) =
            runInner canR sentAny false rest := rfl
        rw [heq]
        exact ih sentAny false
    | .ctxDone e2 =>
      refine ⟨fun _ => ⟨[], allSendOut_nil, Or.inl ⟨e2, rfl⟩⟩,
        fun e h => InnerOutcome.noConfusion h, fun h => InnerOutcome.noConfusion h⟩

theorem allSendOut_append (a b : List OuterAct) (ha : allSendOut a) (hb : allSendOut b) :
    allSendOut (a ++ b) := by
  intro x hx
  rcases List.mem_append.mp hx with h | h
  · exact ha x h
  · exact hb x h

theorem streamLoop_structure (n start total : Nat) (project : String)
    (attempts : Nat → StreamAttempt) :
    ∀ fuel lastErr tr inv, allSendOut tr →
      ((streamLoop n start total project attempts fuel lastErr tr inv).blocked = true ∧
        allSendOut (streamLoop n start total project attempts fuel lastErr tr inv).trace) ∨
      ((streamLoop n start total project attempts fuel lastErr tr inv).blocked = false ∧
        ∃ t, allSendOut t ∧
          ((streamLoop n start total project attempts fuel lastErr tr inv).trace =
              t ++ [.closeOut, .closeErr] ∨
            ∃ e, (streamLoop n start total project attempts fuel lastErr tr inv).trace =
                t ++ [.sendErr e, .closeOut, .closeErr] ∨
              (streamLoop n start total project attempts fuel lastErr tr inv).trace =
                t ++ [.closeOut, .sendErr e, .closeErr])) := by
  intro fuel
  induction fuel with
  | zero =>
    intro lastErr tr inv htr
    match lastErr with
    | some e =>
      refine Or.inr ⟨rfl, tr, htr, Or.inr ⟨e, Or.inr rfl⟩⟩
    | none =>
      refine Or.inr ⟨rfl, tr, htr, Or.inl rfl⟩
  | succ f ih =>
    intro lastErr tr inv htr
    have heq : streamLoop n start total project attempts (f + 1) lastErr tr inv =
        (match (if project = "" then (attempts (total - (f + 1))).resolve
            else .ok project) with
        | .error e => streamLoop n start total project attempts f (some e) tr inv
        | .ok _ =>
          match (runInner (decide (total - (f + 1) + 1 < total)) false true
              (attempts (total - (f + 1))).obs).2 with
          | .rotate e =>
            streamLoop n start total project attempts f (some e)
              (tr ++ (runInner (decide (total - (f + 1) + 1 < total)) false true
                (attempts (total - (f + 1))).obs).1)
              (inv ++ [(start + (total - (f + 1))) % n])
          | .returned =>
            ⟨tr ++ (runInner (decide (total - (f + 1) + 1 < total)) false true
                (attempts (total - (f + 1))).obs).1,
              inv ++ [(start + (total - (f + 1))) % n], false⟩
          | .blocked =>
            ⟨tr ++ (runInner (decide (total - (f + 1) + 1 < total)) false true
                (attempts (total - (f + 1))).obs).1,
              inv ++ [(start + (total - (f + 1))) % n], true⟩) := rfl
    rw [heq]
    rcases hres : (if project = "" then (attempts (total - (f + 1))).resolve
        else .ok project) with e | pid
    · dsimp only
      exact ih (some e) tr inv htr
    · dsimp only
      obtain ⟨ihret, ihrot, ihblk⟩ := runInner_structure
        (decide (total - (f + 1) + 1 < total)) (attempts (total - (f + 1))).obs false true
      rcases hr : (runInner (decide (total - (f + 1) + 1 < total)) false true
          (attempts (total - (f + 1))).obs).2 with e2 | _ | _
      · dsimp only
        have hnil := ihrot e2 hr
        rw [hnil, List.append_nil]
        exact ih (some e2) tr (inv ++ [(start + (total - (f + 1))) % n]) htr
      · dsimp only
        obtain ⟨t0, ht0, hcase⟩ := ihret hr
        refine Or.inr ⟨rfl, tr ++ t0, allSendOut_append tr t0 htr ht0, ?_⟩
        rcases hcase with ⟨e3, he3⟩ | he
        · refine Or.inr ⟨e3, Or.inl ?_⟩
          rw [he3, List.append_assoc]
        · refine Or.inl ?_
          rw [he, List.append_assoc]
      · dsimp only
        refine Or.inl ⟨rfl, ?_⟩
        exact allSendOut_append _ _ htr (ihblk hr)

/-- Claim C1 counterexample: a streaming dispatch over one unit whose
project id resolution fails (with no retry budget) fails, but the code
closes the outer event channel first and only then sends the error, so
the error is not observable before the close. -/
theorem GenerateContentStream_close_before_error_counterexample :
    (GenerateContentStream 1 0 0 ""
        (fun _ => ⟨Except.error ⟨false, false, "discover project timeout"⟩, []⟩)).blocked =
      false ∧
    OuterAct.sendErr ⟨false, false, "discover project timeout"⟩ ∈
      (GenerateContentStream 1 0 0 ""
        (fun _ => ⟨Except.error ⟨false, false, "discover project timeout"⟩, []⟩)).trace ∧
    ¬ errObservedBeforeClose (GenerateContentStream 1 0 0 ""
        (fun _ => ⟨Except.error ⟨false, false, "discover project timeout"⟩, []⟩)).trace := by
  have htr : (GenerateContentStream 1 0 0 ""
      (fun _ => ⟨Except.error ⟨false, false, "discover project timeout"⟩, []⟩)).trace =
      [.closeOut, .sendErr ⟨false, false, "discover project timeout"⟩, .closeErr] := rfl
  refine ⟨rfl, ?_, ?_⟩
  · rw [htr]
    exact List.mem_cons_of_mem _ (List.mem_cons_self _ _)
  · intro h
    rw [htr] at h
    have := h 1 0 ⟨false, false, "discover project timeout"⟩ rfl rfl
    omega

theorem errObservedBeforeClose_shape (t : List OuterAct) (e : GoError)
    (ht : allSendOut t) :
    errObservedBeforeClose (t ++ [.sendErr e, .closeOut, .closeErr]) := by
  intro i j e2 hi hj
  have hit : t.length ≤ i := by
    by_contra hlt
    push_neg at hlt
    rw [List.get?_append hlt] at hi
    obtain ⟨g, hg⟩ := ht _ (List.get?_mem hi)
    cases hg
  have hjt : t.length ≤ j := by
    by_contra hlt
    push_neg at hlt
    rw [List.get?_append hlt] at hj
    obtain ⟨g, hg⟩ := ht _ (List.get?_mem hj)
    cases hg
  rw [List.get?_append_right hit] at hi
  rw [List.get?_append_right hjt] at hj
  have hi0 : i - t.length = 0 := by
    rcases hc : i - t.length with _ | m
    · rfl
    · rw [hc] at hi
      rcases m with _ | m2
      · simp at hi
      · rcases m2 with _ | m3
        · simp at hi
        · simp at hi
  have hj1 : j - t.length = 1 := by
    rcases hc : j - t.length with _ | m
    · rw [hc] at hj
      simp at hj
    · rcases m with _ | m2
      · rfl
      · rcases m2 with _ | m3
        · rw [hc] at hj
          simp at hj
        · rw [hc] at hj
          simp at hj
  omega

theorem not_errObservedBeforeClose_shape (t : List OuterAct) (e : GoError)
    (_ht : allSendOut t) :
    ¬ errObservedBeforeClose (t ++ [.closeOut, .sendErr e, .closeErr]) := by
  intro h
  have h1 : (t ++ [OuterAct.closeOut, .sendErr e, .closeErr]).get? (t.length + 1) =
      some (OuterAct.sendErr e) := by
    rw [List.get?_append_right (by omega)]
    have : t.length + 1 - t.length = 1 := by omega
    rw [this]
    rfl
  have h2 : (t ++ [OuterAct.closeOut, .sendErr e, .closeErr]).get? t.length =
      some OuterAct.closeOut := by
    rw [List.get?_append_right (by omega)]
    have : t.length - t.length = 0 := by omega
    rw [this]
    rfl
  have := h (t.length + 1) t.length e h1 h2
  omega

theorem streamLoop_returned_eq (n start total : Nat) (project : String)
    (attempts : Nat → StreamAttempt) (fuel : Nat) (lastErr : Option GoError)
    (tr : List OuterAct) (inv : List Nat) (pid : String)
    (hres : (if project = "" then (attempts (total - (fuel + 1))).resolve
      else .ok project) = .ok pid)
    (hret : (runInner (decide (total - (fuel + 1) + 1 < total)) false true
      (attempts (total - (fuel + 1))).obs).2 = .returned) :
    streamLoop n start total project attempts (fuel + 1) lastErr tr inv =
      ⟨tr ++ (runInner (decide (total - (fuel + 1) + 1 < total)) false true
          (attempts (total - (fuel + 1))).obs).1,
        inv ++ [(start + (total - (fuel + 1))) % n], false⟩ := by
  have heq : streamLoop n start total project attempts (fuel + 1) lastErr tr inv =
      (match (if project = "" then (attempts (total - (fuel + 1))).resolve
          else .ok project) with
      | .error e => streamLoop n start total project attempts fuel (some e) tr inv
      | .ok _ =>
        match (runInner (decide (total - (fuel + 1) + 1 < total)) false true
            (attempts (total - (fuel + 1))).obs).2 with
        | .rotate e =>
          streamLoop n start total project attempts fuel (some e)
            (tr ++ (runInner (decide (total - (fuel + 1) + 1 < total)) false true
              (attempts (total - (fuel + 1))).obs).1)
            (inv ++ [(start + (total - (fuel + 1))) % n])
        | .returned =>
          ⟨tr ++ (runInner (decide (total - (fuel + 1) + 1 < total)) false true
              (attempts (total - (fuel + 1))).obs).1,
            inv ++ [(start + (total - (fuel + 1))) % n], false⟩
        | .blocked =>
          ⟨tr ++ (runInner (decide (total - (fuel + 1) + 1 < total)) false true
              (attempts (total - (fuel + 1))).obs).1,
            inv ++ [(start + (total - (fuel + 1))) % n], true⟩) := rfl
  rw [heq, hres]
  dsimp only
  rw [hret]

theorem runInner_error_suffix (canR sA up : Bool) (obs : List InnerObs) (e : GoError)
    (hret : (runInner canR sA up obs).2 = .returned)
    (hmem : OuterAct.sendErr e ∈ (runInner canR sA up obs).1) :
    ∃ t, allSendOut t ∧
      (runInner canR sA up obs).1 = t ++ [.sendErr e, .closeOut, .closeErr] := by
  obtain ⟨t, ht, hcase⟩ := (runInner_structure canR obs sA up).1 hret
  rcases hcase with ⟨e2, he2⟩ | hclean
  · rw [he2] at hmem
    rcases List.mem_append.mp hmem with hm | hm
    · obtain ⟨g, hg⟩ := ht _ hm
      cases hg
    · rcases List.mem_cons.mp hm with hm | hm
      · have heq : e = e2 := by injection hm
        subst heq
        exact ⟨t, ht, he2⟩
      · rcases List.mem_cons.mp hm with hm | hm
        · exact OuterAct.noConfusion hm
        · rcases List.mem_cons.mp hm with hm | hm
          · exact OuterAct.noConfusion hm
          · cases hm
  · rw [hclean] at hmem
    rcases List.mem_append.mp hmem with hm | hm
    · obtain ⟨g, hg⟩ := ht _ hm
      cases hg
    · rcases List.mem_cons.mp hm with hm | hm
      · exact OuterAct.noConfusion hm
      · rcases List.mem_cons.mp hm with hm | hm
        · exact OuterAct.noConfusion hm
        · cases hm

/-- Claim C1 as amended: every failed, non blocked streaming dispatch
delivers exactly one error, adjacent to the channel closes (conjunct 1:
the trace is a run of forwarded events followed by one of the two
error/close suffixes); the order depends on the failure mode: an attempt
whose inner stream delivers an error (inner error or context
cancellation, conjunct 2) puts the error before the outer event channel
close, observable by the consumer, whereas budget exhaustion with only
pre-first-event failures (conjunct 3) and an empty pool (conjunct 4)
close the outer event channel immediately before delivering the error. -/
theorem GenerateContentStream_error_order :
    (∀ (n start retries : Nat) (project : String) (attempts : Nat → StreamAttempt),
      (GenerateContentStream n start retries project attempts).blocked = false →
      (∃ e, OuterAct.sendErr e ∈
        (GenerateContentStream n start retries project attempts).trace) →
      ∃ t e, allSendOut t ∧
        ((GenerateContentStream n start retries project attempts).trace =
            t ++ [.sendErr e, .closeOut, .closeErr] ∨
          (GenerateContentStream n start retries project attempts).trace =
            t ++ [.closeOut, .sendErr e, .closeErr])) ∧
    (∀ (n start total : Nat) (project : String) (attempts : Nat → StreamAttempt)
        (fuel : Nat) (lastErr : Option GoError) (tr : List OuterAct) (inv : List Nat)
        (pid : String) (e : GoError),
      allSendOut tr →
      (if project = "" then (attempts (total - (fuel + 1))).resolve
        else .ok project) = .ok pid →
      (runInner (decide (total - (fuel + 1) + 1 < total)) false true
          (attempts (total - (fuel + 1))).obs).2 = .returned →
      OuterAct.sendErr e ∈ (runInner (decide (total - (fuel + 1) + 1 < total)) false true
          (attempts (total - (fuel + 1))).obs).1 →
      errObservedBeforeClose
        (streamLoop n start total project attempts (fuel + 1) lastErr tr inv).trace) ∧
    (∀ (n start total : Nat) (project : String) (attempts : Nat → StreamAttempt)
        (lastE : GoError) (tr : List OuterAct) (inv : List Nat),
      allSendOut tr →
      (streamLoop n start total project attempts 0 (some lastE) tr inv).trace =
        tr ++ [.closeOut, .sendErr lastE, .closeErr] ∧
      ¬ errObservedBeforeClose
        (streamLoop n start total project attempts 0 (some lastE) tr inv).trace) ∧
    (∀ (start retries : Nat) (project : String) (attempts : Nat → StreamAttempt),
      (GenerateContentStream 0 start retries project attempts).trace =
        [.closeOut, .sendErr noCredsErr, .closeErr] ∧
      ¬ errObservedBeforeClose
        (GenerateContentStream 0 start retries project attempts).trace) := by
  refine ⟨?_, ?_, ?_, ?_⟩
  · intro n start retries project attempts hnb hfail
    by_cases hn : n = 0
    · subst hn
      have htr : (GenerateContentStream 0 start retries project attempts).trace =
          [.closeOut, .sendErr noCredsErr, .closeErr] := rfl
      exact ⟨[], noCredsErr, allSendOut_nil, Or.inr (by rw [htr]; rfl)⟩
    · have heq : GenerateContentStream n start retries project attempts =
          streamLoop n start (retries + 1) project attempts (retries + 1) none [] [] := by
        unfold GenerateContentStream
        rw [if_neg hn]
      rw [heq] at hnb hfail ⊢
      rcases streamLoop_structure n start (retries + 1) project attempts
          (retries + 1) none [] [] allSendOut_nil with ⟨hb, _⟩ | ⟨_, t, ht, hcase⟩
      · rw [hnb] at hb
        cases hb
      · rcases hcase with hclean | ⟨e, herr⟩
        · obtain ⟨e0, hmem⟩ := hfail
          rw [hclean] at hmem
          rcases List.mem_append.mp hmem with hm | hm
          · obtain ⟨g, hg⟩ := ht _ hm
            cases hg
          · rcases List.mem_cons.mp hm with hm | hm
            · cases hm
            · rcases List.mem_cons.mp hm with hm | hm
              · cases hm
              · cases hm
        · rcases herr with herr | herr
          · exact ⟨t, e, ht, Or.inl herr⟩
          · exact ⟨t, e, ht, Or.inr herr⟩
  · intro n start total project attempts fuel lastErr tr inv pid e htr hres hret hmem
    rw [streamLoop_returned_eq n start total project attempts fuel lastErr tr inv pid
      hres hret]
    obtain ⟨t, ht, hsuf⟩ := runInner_error_suffix _ false true _ e hret hmem
    dsimp only
    rw [hsuf, ← List.append_assoc]
    exact errObservedBeforeClose_shape (tr ++ t) e (allSendOut_append tr t htr ht)
  · intro n start total project attempts lastE tr inv htr
    exact ⟨rfl, not_errObservedBeforeClose_shape tr lastE htr⟩
  · intro start retries project attempts
    exact ⟨rfl, not_errObservedBeforeClose_shape [] noCredsErr allSendOut_nil⟩

/-- Witness for the amended claim C1: the empty pool run fails with its
single error after the close (conjuncts 1 and 4), and a one attempt run
whose stream forwards one event and then fails delivers the error before
the outer event channel closes (conjunct 2). -/
theorem GenerateContentStream_error_order_witness :
    (∃ t e, allSendOut t ∧
      ((GenerateContentStream 0 5 2 "p" (fun _ => ⟨Except.ok "p", []⟩)).trace =
          t ++ [.sendErr e, .closeOut, .closeErr] ∨
        (GenerateContentStream 0 5 2 "p" (fun _ => ⟨Except.ok "p", []⟩)).trace =
          t ++ [.closeOut, .sendErr e, .closeErr])) ∧
    errObservedBeforeClose
      (streamLoop 1 0 1 "p"
        (fun _ => ⟨Except.ok "p",
          [.event GeminiAPIResponse.zero,
            .errValue (some ⟨false, false, "upstream status 500: s"⟩)]⟩)
        1 none [] []).trace ∧
    ¬ errObservedBeforeClose
      (GenerateContentStream 0 5 2 "p" (fun _ => ⟨Except.ok "p", []⟩)).trace := by
  have h := GenerateContentStream_error_order
  refine ⟨?_, ?_, ?_⟩
  · exact h.1 0 5 2 "p" (fun _ => ⟨Except.ok "p", []⟩) rfl
      ⟨noCredsErr, List.mem_cons_of_mem _ (List.mem_cons_self _ _)⟩
  · exact h.2.1 1 0 1 "p"
      (fun _ => ⟨Except.ok "p",
        [.event GeminiAPIResponse.zero,
          .errValue (some ⟨false, false, "upstream status 500: s"⟩)]⟩)
      0 none [] [] "p" ⟨false, false, "upstream status 500: s"⟩ allSendOut_nil rfl rfl
      (List.mem_cons_of_mem _ (List.mem_cons_self _ _))
  · exact (h.2.2.2 5 2 "p" (fun _ => ⟨Except.ok "p", []⟩)).2

/-- Claim C2: once an event has been forwarded (sentAny), an inner error
is never answered by rotation: the error is delivered terminally, the
outer channels are closed and the attempt loop stops invoking units; a
rotation carries no forwarded event and happens only when attempts remain
and the error is retryable; conversely, a retryable inner error before any
event with attempts remaining does rotate. -/
theorem GenerateContentStream_no_rotation_after_first_event :
    (∀ (canR upOpen : Bool) (obs : List InnerObs) (tr : List OuterAct) (e : GoError),
      ¬(runInner canR true upOpen obs = (tr, .rotate e))) ∧
    (∀ (canR : Bool) (e : GoError) (rest : List InnerObs),
      runInner canR true true (.errValue (some e) :: rest) =
        ([.sendErr e, .closeOut, .closeErr], .returned)) ∧
    (∀ (canR sentAny upOpen : Bool) (obs : List InnerObs) (e : GoError),
      (runInner canR sentAny upOpen obs).2 = .rotate e →
      sentAny = false ∧ canR = true ∧ isRetryable (some e) = true) ∧
    (∀ (e : GoError) (rest : List InnerObs), isRetryable (some e) = true →
      runInner true false true (.errValue (some e) :: rest) = ([], .rotate e)) ∧
    (∀ (n start total : Nat) (project : String) (attempts : Nat → StreamAttempt)
        (fuel : Nat) (lastErr : Option GoError) (tr : List OuterAct) (inv : List Nat)
        (pid : String),
      (if project = "" then (attempts (total - (fuel + 1))).resolve else .ok project) =
        .ok pid →
      (runInner (decide (total - (fuel + 1) + 1 < total)) false true
          (attempts (total - (fuel + 1))).obs).2 = .returned →
      streamLoop n start total project attempts (fuel + 1) lastErr tr inv =
        ⟨tr ++ (runInner (decide (total - (fuel + 1) + 1 < total)) false true
            (attempts (total - (fuel + 1))).obs).1,
          inv ++ [(start + (total - (fuel + 1))) % n], false⟩) := by
  refine ⟨?_, ?_, ?_, ?_, ?_⟩
  · intro canR upOpen obs tr e hEq
    have h2 : (runInner canR true upOpen obs).2 = .rotate e := by
      rw [hEq]
    have := (runInner_rotate_conditions canR obs true upOpen e h2).1
    cases this
  · intro canR e rest
    rfl
  · intro canR sentAny upOpen obs e h
    exact runInner_rotate_conditions canR obs sentAny upOpen e h
  · intro e rest hret
    have heq0 : runInner true false true (.errValue (some e) :: rest) =
        (if !false && true && isRetryable (some e) then
          (([] : List OuterAct), InnerOutcome.rotate e)
        else ([OuterAct.sendErr e, OuterAct.closeOut, OuterAct.closeErr],
          InnerOutcome.returned)) := rfl
    rw [heq0, if_pos (show (!false && true && isRetryable (some e)) = true by
      simpa using hret)]
  · intro n start total project attempts fuel lastErr tr inv pid hres hret
    have heq : streamLoop n start total project attempts (fuel + 1) lastErr tr inv =
        (match (if project = "" then (attempts (total - (fuel + 1))).resolve
            else .ok project) with
        | .error e => streamLoop n start total project attempts fuel (some e) tr inv
        | .ok _ =>
          match (runInner (decide (total - (fuel + 1) + 1 < total)) false true
              (attempts (total - (fuel + 1))).obs).2 with
          | .rotate e =>
            streamLoop n start total project attempts fuel (some e)
              (tr ++ (runInner (decide (total - (fuel + 1) + 1 < total)) false true
                (attempts (total - (fuel + 1))).obs).1)
              (inv ++ [(start + (total - (fuel + 1))) % n])
          | .returned =>
            ⟨tr ++ (runInner (decide (total - (fuel + 1) + 1 < total)) false true
                (attempts (total - (fuel + 1))).obs).1,
              inv ++ [(start + (total - (fuel + 1))) % n], false⟩
          | .blocked =>
            ⟨tr ++ (runInner (decide (total - (fuel + 1) + 1 < total)) false true
                (attempts (total - (fuel + 1))).obs).1,
              inv ++ [(start + (total - (fuel + 1))) % n], true⟩) := rfl
    rw [heq, hres]
    dsimp only
    rw [hret]

/-- Witness for claim C2: with sentAny set, an inner error is delivered
terminally even though rotation would be allowed; before any event the
same kind of retryable error rotates. -/
theorem GenerateContentStream_no_rotation_after_first_event_witness :
    runInner true true true [.errValue (some ⟨false, false, "upstream status 500: x"⟩)] =
      ([.sendErr ⟨false, false, "upstream status 500: x"⟩, .closeOut, .closeErr],
        .returned) ∧
    runInner true false true [.errValue (some ⟨false, false, "upstream status 500: x"⟩)] =
      ([], .rotate ⟨false, false, "upstream status 500: x"⟩) := by
  have h := GenerateContentStream_no_rotation_after_first_event
  exact ⟨h.2.1 true ⟨false, false, "upstream status 500: x"⟩ [],
    h.2.2.2.1 ⟨false, false, "upstream status 500: x"⟩ [] (by decide)⟩
